import Mathlib

/-!
# Package `sender` (send/send.go): connector construction and transaction submit

A shallow embedding of `send/send.go`.

* Go `string` and `[]byte` values are byte sequences (`GoString`); they need not be
  valid UTF-8.
* A nil-able Go pointer is a `Ptr`; the pointee is stored inline and every operation
  that mutates it returns the new value (explicit state passing).
* A Go `error` interface value is `error`: `none` is `nil`.
* The effects of the program are made explicit: the process-wide
  `websocket.DefaultDialer`, the list of `Dial` calls made so far, and for each
  connection the list of `WriteMessage` calls and the number of `ReadMessage` calls.
* The standard-library functions the package calls (`base64`, `encoding/json`,
  `unicode/utf8`, `errors`) and the `gorilla/websocket` calls are modelled after their
  documented behaviour, under their Go names.
-/

/-- Go `byte`. -/
abbrev byte := Fin 256

/-- Go `string` (and `[]byte`): a sequence of bytes, not necessarily valid UTF-8. -/
abbrev GoString := List byte

/-- Nil-able Go pointer with its pointee stored inline; `none` is `nil`. -/
abbrev Ptr (α : Type) := Option α

/-- The byte with value `n mod 256` (Go conversion `byte(n)`). -/
def mkByte (n : Nat) : byte := ⟨n % 256, Nat.mod_lt _ (by decide)⟩

namespace utf8

/-- Go `utf8.RuneError`, the replacement character U+FFFD. -/
def RuneError : Nat := 0xFFFD

/-- Go `utf8.UTFMax`: the longest encoding of a rune, in bytes. -/
def UTFMax : Nat := 4

/-- Go `utf8.AppendRune(nil, r)`: the UTF-8 encoding of rune `r`; surrogates and values
above U+10FFFF are encoded as `RuneError`. -/
def EncodeRune (r : Nat) : GoString :=
  if r < 0x80 then [mkByte r]
  else if r < 0x800 then [mkByte (0xC0 + r / 64), mkByte (0x80 + r % 64)]
  else if (0xD800 ≤ r ∧ r < 0xE000) ∨ 0x10FFFF < r then [0xEF, 0xBF, 0xBD]
  else if r < 0x10000 then
    [mkByte (0xE0 + r / 4096), mkByte (0x80 + r / 64 % 64), mkByte (0x80 + r % 64)]
  else
    [mkByte (0xF0 + r / 262144), mkByte (0x80 + r / 4096 % 64),
     mkByte (0x80 + r / 64 % 64), mkByte (0x80 + r % 64)]

/-- Go `utf8.DecodeRuneInString`: the first rune of `s` and the number of bytes it
takes; `(RuneError, 0)` for the empty string and `(RuneError, 1)` when `s` does not start
with a well-formed encoding. The masks and shifts of the Go code are written with
`%`, `*` and `+`. -/
def DecodeRuneInString (s : GoString) : Nat × Nat :=
  match s with
  | [] => (RuneError, 0)
  | s0 :: _ =>
    if s0.val < 0x80 then (s0.val, 1)
    else if s0.val < 0xC2 ∨ 0xF4 < s0.val then (RuneError, 1)
    else
      let sz := if s0.val < 0xE0 then 2 else if s0.val < 0xF0 then 3 else 4
      let lo := if s0.val = 0xE0 then 0xA0 else if s0.val = 0xF0 then 0x90 else 0x80
      let hi := if s0.val = 0xED then 0x9F else if s0.val = 0xF4 then 0x8F else 0xBF
      if s.length < sz then (RuneError, 1)
      else
        let s1 := (s.getD 1 0).val
        if s1 < lo ∨ hi < s1 then (RuneError, 1)
        else if sz ≤ 2 then (s0.val % 32 * 64 + s1 % 64, 2)
        else
          let s2 := (s.getD 2 0).val
          if s2 < 0x80 ∨ 0xBF < s2 then (RuneError, 1)
          else if sz ≤ 3 then (s0.val % 16 * 4096 + s1 % 64 * 64 + s2 % 64, 3)
          else
            let s3 := (s.getD 3 0).val
            if s3 < 0x80 ∨ 0xBF < s3 then (RuneError, 1)
            else (s0.val % 8 * 262144 + s1 % 64 * 4096 + s2 % 64 * 64 + s3 % 64, 4)

/-- The loop of Go `utf8.ValidString`, with the input length as fuel: no position
decodes to `(RuneError, 1)`. -/
def validLoop : Nat → GoString → Bool
  | 0, s => s.isEmpty
  | _ + 1, [] => true
  | fuel + 1, b :: rest =>
    if b.val < 0x80 then validLoop fuel rest
    else if (DecodeRuneInString (b :: rest)).1 = RuneError
        ∧ (DecodeRuneInString (b :: rest)).2 = 1 then false
    else validLoop fuel ((b :: rest).drop (DecodeRuneInString (b :: rest)).2)

/-- Go `utf8.ValidString`: whether `s` consists entirely of valid UTF-8-encoded runes. -/
def ValidString (s : GoString) : Bool := validLoop s.length s

/-- The shapes a decoding can have on a string that starts with a non-ASCII byte. -/
def DecodeShape (b0 : byte) (t : GoString) (d : Nat × Nat) : Prop :=
  d = (RuneError, 1) ∨
  (∃ b1 r, t = b1 :: r ∧ 0x80 ≤ b1.val ∧ d = (b0.val % 32 * 64 + b1.val % 64, 2)) ∨
  (∃ b1 b2 r, t = b1 :: b2 :: r ∧ 0x80 ≤ b1.val ∧ b1.val ≤ 0xBF ∧ 0x80 ≤ b2.val ∧ b2.val ≤ 0xBF ∧
    0xE0 ≤ b0.val ∧ b0.val < 0xF0 ∧
    d = (b0.val % 16 * 4096 + b1.val % 64 * 64 + b2.val % 64, 3)) ∨
  (∃ b1 b2 b3 r, t = b1 :: b2 :: b3 :: r ∧ 0x80 ≤ b1.val ∧ 0x80 ≤ b2.val ∧ 0x80 ≤ b3.val ∧
    0x10000 ≤ b0.val % 8 * 262144 + b1.val % 64 * 4096 + b2.val % 64 * 64 + b3.val % 64 ∧
    d = (b0.val % 8 * 262144 + b1.val % 64 * 4096 + b2.val % 64 * 64 + b3.val % 64, 4))

end utf8

/-- The bytes of a Go string literal: Go source text is UTF-8. -/
def str (s : String) : GoString := s.toList.flatMap (fun c => utf8.EncodeRune c.toNat)

/-- Go `errors.errorString`: the value behind a non-nil `error`, holding the text that
its `Error()` method returns. -/
structure errorString where
  s : GoString
deriving DecidableEq

/-- Go `error` interface value; `none` is `nil`. -/
abbrev error := Option errorString

namespace errors

/-- Go `errors.New`. -/
def New (text : GoString) : error := some { s := text }

end errors

namespace base64

/-- Go `base64.encodeStd`, the standard alphabet. -/
def encodeStd : GoString :=
  str "ABCDEFGHIJKLMNOPQRSTUVWXYZabcdefghijklmnopqrstuvwxyz0123456789+/"

/-- Go `base64.StdPadding`, the character `=`. -/
def StdPadding : byte := 0x3D

/-- The alphabet character for the 6-bit value `v`. -/
def encChar (v : Nat) : byte := encodeStd.getD (v % 64) 0

/-- Go `base64.StdEncoding.EncodeToString`: every 3 input bytes give 4 characters of
the standard alphabet; a final group of 1 or 2 bytes is padded with `=`. -/
def StdEncoding.EncodeToString : GoString → GoString
  | [] => []
  | [a] => [encChar (a.val / 4), encChar (a.val % 4 * 16), StdPadding, StdPadding]
  | [a, b] =>
    [encChar (a.val / 4), encChar (a.val % 4 * 16 + b.val / 16),
     encChar (b.val % 16 * 4), StdPadding]
  | a :: b :: c :: rest =>
    [encChar (a.val / 4), encChar (a.val % 4 * 16 + b.val / 16),
     encChar (b.val % 16 * 4 + c.val / 64), encChar (c.val % 64)]
      ++ StdEncoding.EncodeToString rest

end base64

/-!
## A base64 reader

The package only encodes. To say that a header value is the standard padded base64
encoding of some bytes, the definitions below give a reader for such texts after
RFC 4648. It is the yardstick the encoder is measured against, not code of the package,
and it does not use the encoder or its table.
-/

namespace base64

/-- The 6-bit value of a character of the standard alphabet (RFC 4648, table 1), given
by the ranges of the alphabet; `none` for any other byte, the padding included. -/
def decChar (c : byte) : Option Nat :=
  if 0x41 ≤ c.val ∧ c.val ≤ 0x5A then some (c.val - 0x41)
  else if 0x61 ≤ c.val ∧ c.val ≤ 0x7A then some (c.val - 0x61 + 26)
  else if 0x30 ≤ c.val ∧ c.val ≤ 0x39 then some (c.val - 0x30 + 52)
  else if c.val = 0x2B then some 62
  else if c.val = 0x2F then some 63
  else none

/-- Four alphabet characters stand for three bytes. -/
def decodeQuad (c1 c2 c3 c4 : byte) : Option GoString :=
  match decChar c1, decChar c2, decChar c3, decChar c4 with
  | some v1, some v2, some v3, some v4 =>
    some [mkByte (v1 * 4 + v2 / 16), mkByte (v2 % 16 * 16 + v3 / 4), mkByte (v3 % 4 * 64 + v4)]
  | _, _, _, _ => none

/-- Three alphabet characters before one `=` stand for two bytes; the two bits left
over must be zero. -/
def decodeTriple (c1 c2 c3 : byte) : Option GoString :=
  match decChar c1, decChar c2, decChar c3 with
  | some v1, some v2, some v3 =>
    if v3 % 4 = 0 then some [mkByte (v1 * 4 + v2 / 16), mkByte (v2 % 16 * 16 + v3 / 4)] else none
  | _, _, _ => none

/-- Two alphabet characters before `==` stand for one byte; the four bits left over
must be zero. -/
def decodePair (c1 c2 : byte) : Option GoString :=
  match decChar c1, decChar c2 with
  | some v1, some v2 => if v2 % 16 = 0 then some [mkByte (v1 * 4 + v2 / 16)] else none
  | _, _ => none

/-- The last group of four characters: with two, one or no padding characters. -/
def decodeLast (c1 c2 c3 c4 : byte) : Option GoString :=
  if c3.val = 0x3D ∧ c4.val = 0x3D then decodePair c1 c2
  else if c4.val = 0x3D then decodeTriple c1 c2 c3
  else decodeQuad c1 c2 c3 c4

/-- Reads a base64 text in the standard alphabet with padding (RFC 4648, section 4):
groups of four characters, padding only at the end of the last group. Anything else
(a length that is no multiple of four, a byte outside the alphabet, padding elsewhere,
left-over bits that are not zero) is refused. -/
def decodeStrict : GoString → Option GoString
  | [] => some []
  | [c1, c2, c3, c4] => decodeLast c1 c2 c3 c4
  | c1 :: c2 :: c3 :: c4 :: c5 :: rest =>
    match decodeQuad c1 c2 c3 c4, decodeStrict (c5 :: rest) with
    | some g, some r => some (g ++ r)
    | _, _ => none
  | _ => none

end base64

namespace strconv

/-- The decimal digits of `n`, most significant first (`fuel` bounds the digit count). -/
def digits : Nat → Nat → GoString
  | 0, _ => []
  | fuel + 1, n =>
    if n < 10 then [mkByte (0x30 + n)] else digits fuel (n / 10) ++ [mkByte (0x30 + n % 10)]

/-- Go `strconv.FormatInt(i, 10)`. -/
def FormatInt (i : Int) : GoString :=
  if i < 0 then 0x2D :: digits (i.natAbs + 1) i.natAbs else digits (i.natAbs + 1) i.natAbs

end strconv

namespace json

/-- Go `json.hex`. -/
def hex : GoString := str "0123456789abcdef"

/-- Go `json.htmlSafeSet`: the ASCII bytes a JSON string can hold unescaped when HTML
escaping is on: all from space to DEL except the double quote, the backslash, `<`, `>`
and `&`. -/
def htmlSafeSet (b : byte) : Bool :=
  0x20 ≤ b.val ∧ b.val < 0x80 ∧ b.val ≠ 0x22 ∧ b.val ≠ 0x5C ∧ b.val ≠ 0x3C ∧ b.val ≠ 0x3E
    ∧ b.val ≠ 0x26

/-- The escape Go `json.appendString` writes for an ASCII byte outside `htmlSafeSet`. -/
def escapeByte (b : byte) : GoString :=
  if b.val = 0x5C ∨ b.val = 0x22 then [0x5C, b]
  else if b.val = 0x08 then [0x5C, 0x62]
  else if b.val = 0x0C then [0x5C, 0x66]
  else if b.val = 0x0A then [0x5C, 0x6E]
  else if b.val = 0x0D then [0x5C, 0x72]
  else if b.val = 0x09 then [0x5C, 0x74]
  else [0x5C, 0x75, 0x30, 0x30, hex.getD (b.val / 16) 0, hex.getD (b.val % 16) 0]

/-- The loop of Go `json.appendString` (with `escapeHTML` set, as `Marshal` does), with
the input length as fuel: safe ASCII bytes are copied, other ASCII bytes are escaped, a
byte that starts no valid UTF-8 encoding becomes the six characters of the escape for
U+FFFD, the runes U+2028 and U+2029 become their six-character escapes, and every other
rune is copied. -/
def appendStringLoop : Nat → GoString → GoString
  | 0, _ => []
  | _ + 1, [] => []
  | fuel + 1, b :: rest =>
    if b.val < 0x80 then
      if htmlSafeSet b then b :: appendStringLoop fuel rest
      else escapeByte b ++ appendStringLoop fuel rest
    else
      let n := min (b :: rest).length utf8.UTFMax
      let d := utf8.DecodeRuneInString ((b :: rest).take n)
      if d.1 = utf8.RuneError ∧ d.2 = 1 then
        str "\\ufffd" ++ appendStringLoop fuel ((b :: rest).drop d.2)
      else if d.1 = 0x2028 ∨ d.1 = 0x2029 then
        str "\\u202" ++ [hex.getD (d.1 % 16) 0] ++ appendStringLoop fuel ((b :: rest).drop d.2)
      else (b :: rest).take d.2 ++ appendStringLoop fuel ((b :: rest).drop d.2)

/-- Go `json.appendString(dst, src, true)`: `src` as a quoted JSON string. -/
def appendString (src : GoString) : GoString :=
  0x22 :: appendStringLoop src.length src ++ [0x22]

/-- Go string comparison `a <= b` (bytewise lexicographic). -/
def stringLE : GoString → GoString → Bool
  | [], _ => true
  | _ :: _, [] => false
  | a :: as, b :: bs => a.val < b.val || (a.val = b.val && stringLE as bs)

/-- Insertion of a map entry into a list of entries sorted by key. -/
def insertEntry (e : GoString × GoString) : List (GoString × GoString) → List (GoString × GoString)
  | [] => [e]
  | x :: xs => if stringLE e.1 x.1 then e :: x :: xs else x :: insertEntry e xs

/-- The entries of a map in the order `encoding/json` writes them: sorted by key. -/
def sortedEntries (m : List (GoString × GoString)) : List (GoString × GoString) :=
  m.foldr insertEntry []

/-- The members of an encoded map, separated by commas. -/
def encodeEntries : List (GoString × GoString) → GoString
  | [] => []
  | [e] => appendString e.1 ++ str ":" ++ appendString e.2
  | e :: es => appendString e.1 ++ str ":" ++ appendString e.2 ++ str "," ++ encodeEntries es

/-- The encoding Go `json.Marshal` gives a non-nil `map[string]interface{}` whose values
are strings. -/
def encodeMap (m : List (GoString × GoString)) : GoString :=
  str "\x7b" ++ encodeEntries (sortedEntries m) ++ str "\x7d"

end json

/-!
## A JSON reader

The package only writes JSON. To say what a frame is "when parsed as JSON", the
definitions below give a reader for JSON texts after RFC 8259 (numbers restricted to
integers). It is the yardstick the frames are measured against, not code of the package.
-/

namespace json

/-- A JSON value as the reader yields it; strings are the UTF-8 bytes of their content
and the members of an object are kept in the order of the text. -/
inductive Value where
  | null
  | bool (b : Bool)
  | number (n : Int)
  | string (s : GoString)
  | array (elems : List Value)
  | object (members : List (GoString × Value))

/-- Skips JSON whitespace. -/
def skipSpace : GoString → GoString
  | [] => []
  | b :: rest =>
    if b.val = 0x20 ∨ b.val = 0x09 ∨ b.val = 0x0A ∨ b.val = 0x0D then skipSpace rest
    else b :: rest

/-- The value of a hexadecimal digit. -/
def hexVal (b : byte) : Option Nat :=
  if 0x30 ≤ b.val ∧ b.val ≤ 0x39 then some (b.val - 0x30)
  else if 0x61 ≤ b.val ∧ b.val ≤ 0x66 then some (b.val - 0x61 + 10)
  else if 0x41 ≤ b.val ∧ b.val ≤ 0x46 then some (b.val - 0x41 + 10)
  else none

/-- The value of four hexadecimal digits. -/
def hex4 (a b c d : byte) : Option Nat :=
  match hexVal a, hexVal b, hexVal c, hexVal d with
  | some x, some y, some z, some w => some (x * 4096 + y * 256 + z * 16 + w)
  | _, _, _, _ => none

/-- The byte a two-character JSON escape stands for. -/
def unescape (e : byte) : Option byte :=
  if e.val = 0x22 then some 0x22
  else if e.val = 0x5C then some 0x5C
  else if e.val = 0x2F then some 0x2F
  else if e.val = 0x62 then some 0x08
  else if e.val = 0x66 then some 0x0C
  else if e.val = 0x6E then some 0x0A
  else if e.val = 0x72 then some 0x0D
  else if e.val = 0x74 then some 0x09
  else none

/-- Reads four hexadecimal digits: their value and the input after them. -/
def readHex4 : GoString → Option (Nat × GoString)
  | h1 :: h2 :: h3 :: h4 :: rest => (hex4 h1 h2 h3 h4).map (fun n => (n, rest))
  | _ => none

/-- Reads a `\u` escape of a low surrogate (DC00 to DFFF): its value and the input
after it. -/
def readLowSurrogate : GoString → Option (Nat × GoString)
  | bs :: u :: rest =>
    if bs.val = 0x5C ∧ u.val = 0x75 then
      match readHex4 rest with
      | none => none
      | some (lo, rest1) => if 0xDC00 ≤ lo ∧ lo < 0xE000 then some (lo, rest1) else none
    else none
  | _ => none

/-- Reads one item of the content of a JSON string: `some (none, rest)` for the closing
quote, `some (some bytes, rest)` for a character or an escape with the UTF-8 bytes it
stands for, `none` when the input is malformed. A `\u` escape yields the UTF-8 encoding
of its code point, a surrogate pair that of the combined code point, and a lone surrogate
that of U+FFFD. -/
def readItem : GoString → Option (Option GoString × GoString)
  | [] => none
  | b :: rest =>
    if b.val = 0x22 then some (none, rest)
    else if b.val < 0x20 then none
    else if b.val ≠ 0x5C then some (some [b], rest)
    else
      match rest with
      | [] => none
      | e :: rest1 =>
        if e.val ≠ 0x75 then (unescape e).map (fun c => (some [c], rest1))
        else
          match readHex4 rest1 with
          | none => none
          | some (hi, rest2) =>
            if 0xD800 ≤ hi ∧ hi < 0xDC00 then
              match readLowSurrogate rest2 with
              | some (lo, rest3) =>
                some (some (utf8.EncodeRune (0x10000 + (hi - 0xD800) * 1024 + (lo - 0xDC00))),
                      rest3)
              | none => some (some (utf8.EncodeRune hi), rest2)
            else some (some (utf8.EncodeRune hi), rest2)

/-- Reads a JSON string whose opening quote has been consumed: the content (as UTF-8
bytes, escapes resolved) and the input after the closing quote. `fuel` bounds the number
of items; the length of the input is enough. -/
def readString : Nat → GoString → Option (GoString × GoString)
  | 0, _ => none
  | fuel + 1, s =>
    match readItem s with
    | none => none
    | some (none, rest) => some ([], rest)
    | some (some piece, rest) => (readString fuel rest).map (fun p => (piece ++ p.1, p.2))

/-- Reads a run of decimal digits into the number they continue from `acc`. -/
def readDigits : Nat → GoString → Nat × GoString
  | acc, [] => (acc, [])
  | acc, b :: rest =>
    if 0x30 ≤ b.val ∧ b.val ≤ 0x39 then readDigits (acc * 10 + (b.val - 0x30)) rest
    else (acc, b :: rest)

/-- Reads a JSON number without sign: `0` or a digit run not starting with `0`; a
fraction or an exponent is not accepted. -/
def readNat : GoString → Option (Nat × GoString)
  | [] => none
  | b :: rest =>
    if ¬ (0x30 ≤ b.val ∧ b.val ≤ 0x39) then none
    else
      let r := if b.val = 0x30 then (0, rest) else readDigits (b.val - 0x30) rest
      match r.2 with
      | [] => some r
      | c :: _ =>
        if (0x30 ≤ c.val ∧ c.val ≤ 0x39) ∨ c.val = 0x2E ∨ c.val = 0x65 ∨ c.val = 0x45 then none
        else some r

mutual

/-- Reads one JSON value, skipping the whitespace before it; `fuel` bounds the number of
nested values and members. -/
def readValue : Nat → GoString → Option (Value × GoString)
  | 0, _ => none
  | fuel + 1, data =>
    match skipSpace data with
    | [] => none
    | b :: rest =>
      if b.val = 0x22 then
        (readString rest.length rest).map (fun p => (Value.string p.1, p.2))
      else if b.val = 0x7B then
        match skipSpace rest with
        | [] => none
        | c :: rest1 =>
          if c.val = 0x7D then some (Value.object [], rest1)
          else (readMembers fuel (c :: rest1)).map (fun p => (Value.object p.1, p.2))
      else if b.val = 0x5B then
        match skipSpace rest with
        | [] => none
        | c :: rest1 =>
          if c.val = 0x5D then some (Value.array [], rest1)
          else (readElements fuel (c :: rest1)).map (fun p => (Value.array p.1, p.2))
      else if b.val = 0x2D then
        (readNat rest).map (fun p => (Value.number (- (p.1 : Int)), p.2))
      else if (b :: rest).take 4 = str "true" then some (Value.bool true, rest.drop 3)
      else if (b :: rest).take 5 = str "false" then some (Value.bool false, rest.drop 4)
      else if (b :: rest).take 4 = str "null" then some (Value.null, rest.drop 3)
      else (readNat (b :: rest)).map (fun p => (Value.number (p.1 : Int), p.2))

/-- Reads the members of an object up to and including the closing brace. -/
def readMembers : Nat → GoString → Option (List (GoString × Value) × GoString)
  | 0, _ => none
  | fuel + 1, data =>
    match skipSpace data with
    | [] => none
    | q :: rest =>
      if q.val ≠ 0x22 then none
      else
        match readString rest.length rest with
        | none => none
        | some (key, rest1) =>
          match skipSpace rest1 with
          | [] => none
          | colon :: rest2 =>
            if colon.val ≠ 0x3A then none
            else
              match readValue fuel rest2 with
              | none => none
              | some (v, rest3) =>
                match skipSpace rest3 with
                | [] => none
                | d :: rest4 =>
                  if d.val = 0x2C then
                    (readMembers fuel rest4).map (fun p => ((key, v) :: p.1, p.2))
                  else if d.val = 0x7D then some ([(key, v)], rest4)
                  else none

/-- Reads the elements of an array up to and including the closing bracket. -/
def readElements : Nat → GoString → Option (List Value × GoString)
  | 0, _ => none
  | fuel + 1, data =>
    match readValue fuel data with
    | none => none
    | some (v, rest) =>
      match skipSpace rest with
      | [] => none
      | d :: rest1 =>
        if d.val = 0x2C then (readElements fuel rest1).map (fun p => (v :: p.1, p.2))
        else if d.val = 0x5D then some ([v], rest1)
        else none

end

/-- Parses a JSON text (RFC 8259, numbers restricted to integers): one value with
nothing but whitespace around it. -/
def Parse (data : GoString) : Option Value :=
  match readValue (data.length + 1) data with
  | none => none
  | some (v, rest) => if skipSpace rest = [] then some v else none

end json

/-!
## The libraries around the connection

`crypto/tls`, `net/http`, `zerolog` and `gorilla/websocket`, as far as the package
uses them.
-/

namespace tls

/-- Go `tls.Config`; only the field the package sets is kept. -/
structure Config where
  InsecureSkipVerify : Bool
deriving DecidableEq

end tls

namespace http

/-- Go `http.Header`, a `map[string][]string`, as the list of its entries. -/
abbrev Header := List (GoString × List GoString)

end http

namespace zerolog

/-- Go `zerolog.Logger`; the package only stores it. The zero value is `level = 0`. -/
structure Logger where
  level : Int
deriving DecidableEq

end zerolog

namespace websocket

/-- Go `websocket.TextMessage`. -/
def TextMessage : Int := 1

/-- Go `websocket.Conn` together with the behaviour of its peer.
`writeErrs` holds the results of the coming `WriteMessage` calls (when it is empty a
write succeeds) and `incoming` the results of the coming `ReadMessage` calls; when
`incoming` is empty a read blocks for ever. `writeCalls` records every frame handed to
`WriteMessage` and `readCalls` counts the `ReadMessage` calls made. -/
structure Conn where
  writeErrs : List error
  incoming : List (Int × GoString × error)
  writeCalls : List (Int × GoString)
  readCalls : Nat
deriving DecidableEq

/-- Go `(*Conn).WriteMessage`: records the call and returns the write's result. -/
def Conn.WriteMessage (c : Conn) (messageType : Int) (data : GoString) : error × Conn :=
  (c.writeErrs.headD none,
   { c with writeErrs := c.writeErrs.tail, writeCalls := c.writeCalls ++ [(messageType, data)] })

/-- Go `(*Conn).ReadMessage`: counts the call and returns the next queued result
`(messageType, p, err)`, or `none` when nothing ever arrives (the call never returns). -/
def Conn.ReadMessage (c : Conn) : Option (Int × GoString × error) × Conn :=
  (c.incoming.head?, { c with incoming := c.incoming.tail, readCalls := c.readCalls + 1 })

/-- Go `websocket.Dialer`; only the field the package writes is kept. -/
structure Dialer where
  TLSClientConfig : Ptr tls.Config
deriving DecidableEq

/-- The network seen through Go `(*Dialer).Dial`: for the dialer used, the URL and the
request header, either the error of a failed handshake or the open connection (`Dial`
returns a non-nil `*Conn` exactly when its error is nil). -/
abbrev Dial := Dialer → GoString → http.Header → Except errorString Conn

end websocket

/-!
## Package `sender`
-/

namespace sender

/-- Go constant `CloudWS`. -/
def CloudWS : GoString := str "wss://api.blxrbdn.com/ws"

/-- Go `type Sender struct`. -/
structure Sender where
  log : zerolog.Logger
  accountID : GoString
  secretHash : GoString
  url : GoString
  conn : Ptr websocket.Conn
deriving DecidableEq

/-- Go `type Option func(*Sender)`: an update of the sender being configured. -/
abbrev Option := Sender → Sender

/-- Go `func Log`. -/
def Log (log : zerolog.Logger) : Option := fun s => { s with log := log }

/-- Go `func AccountID`. -/
def AccountID (id : GoString) : Option := fun s => { s with accountID := id }

/-- Go `func SecretHash`. -/
def SecretHash (hash : GoString) : Option := fun s => { s with secretHash := hash }

/-- Go `func URL`. -/
def URL (url : GoString) : Option := fun s => { s with url := url }

/-- The process state `NewSender` acts on: the dialer that the package-level pointer
`websocket.DefaultDialer` points to (shared by every user of the library in the
process) and the `Dial` calls made so far, each with the dialer as it was at the call,
the URL and the request header. -/
structure World where
  DefaultDialer : websocket.Dialer
  dials : List (websocket.Dialer × GoString × http.Header)
deriving DecidableEq

/-- The sender `NewSender` starts from: `&Sender{accountID: "", secretHash: "", conn: nil}`. -/
def emptySender : Sender :=
  { log := { level := 0 }, accountID := [], secretHash := [], url := [], conn := none }

/-- The loop `for _, opt := range opts { opt(s) }`. -/
def applyOptions (opts : List Option) (s : Sender) : Sender :=
  opts.foldl (fun s opt => opt s) s

/-- Go `func NewSender`. `dialer := websocket.DefaultDialer` copies the pointer, so the
assignment to `dialer.TLSClientConfig` writes the shared default dialer. -/
def NewSender (dial : websocket.Dial) (opts : List Option) (w : World) :
    (Ptr Sender × error) × World :=
  let s := applyOptions opts emptySender
  if s.accountID = [] then
    ((none, errors.New (str "account id is unset")), w)
  else if s.secretHash = [] then
    ((none, errors.New (str "secret hash is unset")), w)
  else
    let tlsConfig : tls.Config := { InsecureSkipVerify := true }
    let w1 : World :=
      { w with DefaultDialer := { w.DefaultDialer with TLSClientConfig := some tlsConfig } }
    let dialer := w1.DefaultDialer
    let authHeader := base64.StdEncoding.EncodeToString (s.accountID ++ str ":" ++ s.secretHash)
    let url := if s.url = [] then CloudWS else s.url
    let header : http.Header := [(str "Authorization", [authHeader])]
    let w2 : World := { w1 with dials := w1.dials ++ [(dialer, url, header)] }
    match dial dialer url header with
    | .error err => ((none, some err), w2)
    | .ok conn => ((some { s with conn := some conn }, none), w2)

/-- Go `type request struct`, with its JSON tags `jsonrpc`, `id`, `method` and
`params,omitempty`. `Params` is a `map[string]interface{}`, held as the list of its
entries; the only values the package stores in it are strings. -/
structure request where
  JSONRPC : GoString
  ID : Int
  Method : GoString
  Params : List (GoString × GoString)
deriving DecidableEq

end sender

namespace json

/-- Go `json.Marshal` on a `*request`: the fields in declaration order under their tag
names, `params` left out when the map is empty (`omitempty`); no error arises for this
type. -/
def Marshal (v : sender.request) : GoString × error :=
  (str "\x7b\"jsonrpc\":" ++ appendString v.JSONRPC
    ++ str ",\"id\":" ++ strconv.FormatInt v.ID
    ++ str ",\"method\":" ++ appendString v.Method
    ++ (if v.Params.length = 0 then [] else str ",\"params\":" ++ encodeMap v.Params)
    ++ str "\x7d", none)

end json

namespace sender

/-- The request literal `Send` builds for `rawtx`. -/
def blxrTx (rawtx : GoString) : request :=
  { JSONRPC := str "2.0", ID := 1, Method := str "blxr_tx",
    Params := [(str "transaction", rawtx)] }

/-- How a call ends: it returns a value, never returns, or panics. -/
inductive Ret (α : Type) where
  | returned (v : α)
  | blocked
  | panicked
deriving DecidableEq

/-- Go `func (s *Sender) Send`, returning how the call ends and the sender (with its
connection) as the call leaves it. A nil `s.conn` makes the write panic. -/
def Sender.Send (s : Sender) (rawtx : GoString) : Ret (GoString × error) × Sender :=
  let req : request := blxrTx rawtx
  match json.Marshal req with
  | (_, some err) => (Ret.returned ([], some err), s)
  | (msg, none) =>
    match s.conn with
    | none => (Ret.panicked, s)
    | some c =>
      match c.WriteMessage websocket.TextMessage msg with
      | (some err, c1) => (Ret.returned ([], some err), { s with conn := some c1 })
      | (none, c1) =>
        match c1.ReadMessage with
        | (none, c2) => (Ret.blocked, { s with conn := some c2 })
        | (some (_, _, some err), c2) =>
          (Ret.returned ([], some err), { s with conn := some c2 })
        | (some (_, resp, none), c2) =>
          (Ret.returned (resp, none), { s with conn := some c2 })

/-- A world in which nothing has been dialled and the default dialer is as the
websocket library initialises it (no TLS client configuration). -/
def freshWorld : World := { DefaultDialer := { TLSClientConfig := none }, dials := [] }

/-- A network on which every handshake is refused. -/
def refusingDial : websocket.Dial := fun _ _ _ => .error { s := str "bad handshake" }

/-- A network on which every handshake succeeds, giving a connection on which nothing
has been written or read and whose peer will send the frames `replies`. -/
def acceptingDial (replies : List GoString) : websocket.Dial := fun _ _ _ =>
  .ok { writeErrs := [], incoming := replies.map (fun r => (websocket.TextMessage, r, none)),
        writeCalls := [], readCalls := 0 }

/-- A sender with credentials "A" and "B" whose connection has seen no call yet, will
give the coming writes the results `writeErrs` and the coming reads the results
`replies`. -/
def senderWith (replies : List (Int × GoString × error)) (writeErrs : List error) : Sender :=
  { emptySender with
    accountID := str "A", secretHash := str "B",
    conn := some { writeErrs := writeErrs, incoming := replies, writeCalls := [], readCalls := 0 } }

end sender

/-!
## The base64 encoder against the base64 reader
-/

namespace base64

/-- Reading an alphabet character gives back its value. -/
theorem decChar_encChar (v : Nat) (hv : v < 64) : decChar (encChar v) = some v := by
  interval_cases v <;> rfl

/-- No alphabet character is the padding character. -/
theorem encChar_ne_pad (v : Nat) (hv : v < 64) : (encChar v).val ≠ 0x3D := by
  interval_cases v <;> decide

/-- A byte that reads as a value is the alphabet character for that value. -/
theorem encChar_decChar (c : byte) (v : Nat) (h : decChar c = some v) :
    encChar v = c ∧ v < 64 := by
  obtain ⟨n, hn⟩ := c
  unfold decChar at h
  simp only at h
  split_ifs at h with h1 h2 h3 h4 h5
  all_goals simp only [Option.some.injEq] at h
  all_goals subst h
  · obtain ⟨hl, hu⟩ := h1
    constructor
    · interval_cases n <;> rfl
    · omega
  · obtain ⟨hl, hu⟩ := h2
    constructor
    · interval_cases n <;> rfl
    · omega
  · obtain ⟨hl, hu⟩ := h3
    constructor
    · interval_cases n <;> rfl
    · omega
  · subst h4
    exact ⟨rfl, by omega⟩
  · subst h5
    exact ⟨rfl, by omega⟩

/-- The byte of a value below 256. -/
theorem mkByte_eq (n : Nat) (a : byte) (h : n = a.val) : mkByte n = a := by
  apply Fin.ext
  show n % 256 = a.val
  omega

/-- The value of `mkByte`. -/
theorem val_mkByte (n : Nat) : (mkByte n).val = n % 256 := rfl

/-- Reading four alphabet characters. -/
theorem decodeQuad_encChar (v1 v2 v3 v4 : Nat) (h1 : v1 < 64) (h2 : v2 < 64) (h3 : v3 < 64)
    (h4 : v4 < 64) :
    decodeQuad (encChar v1) (encChar v2) (encChar v3) (encChar v4)
      = some [mkByte (v1 * 4 + v2 / 16), mkByte (v2 % 16 * 16 + v3 / 4),
              mkByte (v3 % 4 * 64 + v4)] := by
  simp only [decodeQuad, decChar_encChar, h1, h2, h3, h4]

/-- The encoding of a non-empty string is not empty. -/
theorem EncodeToString_ne_nil (a : byte) (t : GoString) :
    ∃ c r, StdEncoding.EncodeToString (a :: t) = c :: r := by
  rcases t with _ | ⟨b, _ | ⟨c, r⟩⟩
  · exact ⟨_, _, rfl⟩
  · exact ⟨_, _, rfl⟩
  · exact ⟨_, _, rfl⟩

/-- Round trip: the reader gives back every string from its encoding. -/
theorem decodeStrict_EncodeToString (x : GoString) :
    decodeStrict (StdEncoding.EncodeToString x) = some x := by
  induction x using StdEncoding.EncodeToString.induct with
  | case1 => rfl
  | case2 a =>
    have e2 : (encChar (a.val % 4 * 16)).val ≠ 0x3D := encChar_ne_pad _ (by omega)
    show decodeLast _ _ _ _ = _
    unfold decodeLast
    rw [if_pos ⟨rfl, rfl⟩]
    simp only [decodePair, decChar_encChar _ (show a.val / 4 < 64 by omega),
      decChar_encChar _ (show a.val % 4 * 16 < 64 by omega)]
    rw [if_pos (by omega), mkByte_eq _ a (by omega)]
  | case3 a b =>
    have e3 : ¬ ((encChar (b.val % 16 * 4)).val = 0x3D ∧ StdPadding.val = 0x3D) :=
      fun h => encChar_ne_pad _ (by omega) h.1
    show decodeLast _ _ _ _ = _
    unfold decodeLast
    rw [if_neg e3, if_pos (show StdPadding.val = 0x3D from rfl)]
    simp only [decodeTriple, decChar_encChar _ (show a.val / 4 < 64 by omega),
      decChar_encChar _ (show a.val % 4 * 16 + b.val / 16 < 64 by omega),
      decChar_encChar _ (show b.val % 16 * 4 < 64 by omega)]
    rw [if_pos (by omega), mkByte_eq _ a (by omega), mkByte_eq _ b (by omega)]
  | case4 a b c rest ih =>
    have hq := decodeQuad_encChar (a.val / 4) (a.val % 4 * 16 + b.val / 16)
      (b.val % 16 * 4 + c.val / 64) (c.val % 64) (by omega) (by omega) (by omega) (by omega)
    rw [mkByte_eq _ a (by omega), mkByte_eq _ b (by omega), mkByte_eq _ c (by omega)] at hq
    have e4 : (encChar (c.val % 64)).val ≠ 0x3D := encChar_ne_pad _ (by omega)
    rcases rest with _ | ⟨r, rs⟩
    · show decodeLast _ _ _ _ = _
      unfold decodeLast
      rw [if_neg (fun h => e4 h.2), if_neg e4, hq]
    · obtain ⟨c5, t, ht⟩ := EncodeToString_ne_nil r rs
      rw [ht] at ih
      rw [StdEncoding.EncodeToString, ht]
      show (match decodeQuad _ _ _ _, decodeStrict (c5 :: t) with
            | some g, some r => some (g ++ r)
            | _, _ => none) = _
      rw [hq, ih]
      rfl

/-- The padded form: four characters for every three bytes, the last group filled up. -/
theorem length_EncodeToString (x : GoString) :
    (StdEncoding.EncodeToString x).length = 4 * ((x.length + 2) / 3) := by
  induction x using StdEncoding.EncodeToString.induct with
  | case1 => rfl
  | case2 a => simp [StdEncoding.EncodeToString]
  | case3 a b => simp [StdEncoding.EncodeToString]
  | case4 a b c rest ih =>
    rw [StdEncoding.EncodeToString, List.length_append, ih]
    simp only [List.length_cons, List.length_nil]
    omega


/-- A group of four that reads as bytes is the encoding of these bytes. -/
theorem decodeQuad_some (c1 c2 c3 c4 : byte) (g : GoString) (h : decodeQuad c1 c2 c3 c4 = some g) :
    ∃ x1 x2 x3, g = [x1, x2, x3] ∧
      [encChar (x1.val / 4), encChar (x1.val % 4 * 16 + x2.val / 16),
       encChar (x2.val % 16 * 4 + x3.val / 64), encChar (x3.val % 64)] = [c1, c2, c3, c4] := by
  unfold decodeQuad at h
  cases h1 : decChar c1 with
  | none => simp [h1] at h
  | some v1 =>
    cases h2 : decChar c2 with
    | none => simp [h1, h2] at h
    | some v2 =>
      cases h3 : decChar c3 with
      | none => simp [h1, h2, h3] at h
      | some v3 =>
        cases h4 : decChar c4 with
        | none => simp [h1, h2, h3, h4] at h
        | some v4 =>
          simp only [h1, h2, h3, h4, Option.some.injEq] at h
          obtain ⟨e1, l1⟩ := encChar_decChar c1 v1 h1
          obtain ⟨e2, l2⟩ := encChar_decChar c2 v2 h2
          obtain ⟨e3, l3⟩ := encChar_decChar c3 v3 h3
          obtain ⟨e4, l4⟩ := encChar_decChar c4 v4 h4
          refine ⟨_, _, _, h.symm, ?_⟩
          simp only [val_mkByte]
          have a1 : (v1 * 4 + v2 / 16) % 256 / 4 = v1 := by omega
          have a2 : (v1 * 4 + v2 / 16) % 256 % 4 * 16 + (v2 % 16 * 16 + v3 / 4) % 256 / 16
              = v2 := by omega
          have a3 : (v2 % 16 * 16 + v3 / 4) % 256 % 16 * 4 + (v3 % 4 * 64 + v4) % 256 / 64
              = v3 := by omega
          have a4 : (v3 % 4 * 64 + v4) % 256 % 64 = v4 := by omega
          rw [a1, a2, a3, a4, e1, e2, e3, e4]

/-- A group of three that reads as bytes is the encoding of these bytes. -/
theorem decodeTriple_some (c1 c2 c3 : byte) (g : GoString)
    (h : decodeTriple c1 c2 c3 = some g) :
    ∃ x1 x2, g = [x1, x2] ∧
      [encChar (x1.val / 4), encChar (x1.val % 4 * 16 + x2.val / 16),
       encChar (x2.val % 16 * 4)] = [c1, c2, c3] := by
  unfold decodeTriple at h
  cases h1 : decChar c1 with
  | none => simp [h1] at h
  | some v1 =>
    cases h2 : decChar c2 with
    | none => simp [h1, h2] at h
    | some v2 =>
      cases h3 : decChar c3 with
      | none => simp [h1, h2, h3] at h
      | some v3 =>
        simp only [h1, h2, h3] at h
        by_cases hz : v3 % 4 = 0
        · rw [if_pos hz, Option.some.injEq] at h
          obtain ⟨e1, l1⟩ := encChar_decChar c1 v1 h1
          obtain ⟨e2, l2⟩ := encChar_decChar c2 v2 h2
          obtain ⟨e3, l3⟩ := encChar_decChar c3 v3 h3
          refine ⟨_, _, h.symm, ?_⟩
          simp only [val_mkByte]
          have a1 : (v1 * 4 + v2 / 16) % 256 / 4 = v1 := by omega
          have a2 : (v1 * 4 + v2 / 16) % 256 % 4 * 16 + (v2 % 16 * 16 + v3 / 4) % 256 / 16
              = v2 := by omega
          have a3 : (v2 % 16 * 16 + v3 / 4) % 256 % 16 * 4 = v3 := by omega
          rw [a1, a2, a3, e1, e2, e3]
        · rw [if_neg hz] at h
          exact absurd h (by simp)

/-- A group of two that reads as a byte is the encoding of this byte. -/
theorem decodePair_some (c1 c2 : byte) (g : GoString) (h : decodePair c1 c2 = some g) :
    ∃ x1, g = [x1] ∧ [encChar (x1.val / 4), encChar (x1.val % 4 * 16)] = [c1, c2] := by
  unfold decodePair at h
  cases h1 : decChar c1 with
  | none => simp [h1] at h
  | some v1 =>
    cases h2 : decChar c2 with
    | none => simp [h1, h2] at h
    | some v2 =>
      simp only [h1, h2] at h
      by_cases hz : v2 % 16 = 0
      · rw [if_pos hz, Option.some.injEq] at h
        obtain ⟨e1, l1⟩ := encChar_decChar c1 v1 h1
        obtain ⟨e2, l2⟩ := encChar_decChar c2 v2 h2
        refine ⟨_, h.symm, ?_⟩
        simp only [val_mkByte]
        have a1 : (v1 * 4 + v2 / 16) % 256 / 4 = v1 := by omega
        have a2 : (v1 * 4 + v2 / 16) % 256 % 4 * 16 = v2 := by omega
        rw [a1, a2, e1, e2]
      · rw [if_neg hz] at h
        exact absurd h (by simp)

/-- Any text the reader accepts is the encoding of what it reads: the encoding of a
string is the only text that reads as it. -/
theorem EncodeToString_of_decodeStrict (h x : GoString) (hd : decodeStrict h = some x) :
    StdEncoding.EncodeToString x = h := by
  induction h using decodeStrict.induct generalizing x with
  | case1 =>
    have : x = [] := by
      have h0 : decodeStrict [] = some [] := rfl
      rw [h0] at hd
      exact (Option.some.inj hd).symm
    subst this
    rfl
  | case2 c1 c2 c3 c4 =>
    have h0 : decodeStrict [c1, c2, c3, c4] = decodeLast c1 c2 c3 c4 := rfl
    rw [h0] at hd
    unfold decodeLast at hd
    split_ifs at hd with p1 p2
    · obtain ⟨x1, rfl, he⟩ := decodePair_some c1 c2 x hd
      obtain rfl : c3 = StdPadding := Fin.ext p1.1
      obtain rfl : c4 = StdPadding := Fin.ext p1.2
      simp only [List.cons.injEq, and_true] at he
      show [encChar (x1.val / 4), encChar (x1.val % 4 * 16), StdPadding, StdPadding] = _
      rw [he.1, he.2]
    · obtain ⟨x1, x2, rfl, he⟩ := decodeTriple_some c1 c2 c3 x hd
      obtain rfl : c4 = StdPadding := Fin.ext p2
      simp only [List.cons.injEq, and_true] at he
      show [encChar (x1.val / 4), encChar (x1.val % 4 * 16 + x2.val / 16),
        encChar (x2.val % 16 * 4), StdPadding] = _
      rw [he.1, he.2.1, he.2.2]
    · obtain ⟨x1, x2, x3, rfl, he⟩ := decodeQuad_some c1 c2 c3 c4 x hd
      exact he
  | case3 c1 c2 c3 c4 c5 rest g r hr hg ih =>
    have h0 : decodeStrict (c1 :: c2 :: c3 :: c4 :: c5 :: rest)
        = (match decodeQuad c1 c2 c3 c4, decodeStrict (c5 :: rest) with
            | some g, some r => some (g ++ r)
            | _, _ => none) := rfl
    rw [h0, hg, hr] at hd
    obtain rfl : g ++ r = x := Option.some.inj hd
    obtain ⟨x1, x2, x3, rfl, he⟩ := decodeQuad_some c1 c2 c3 c4 g hg
    show [encChar (x1.val / 4), encChar (x1.val % 4 * 16 + x2.val / 16),
        encChar (x2.val % 16 * 4 + x3.val / 64), encChar (x3.val % 64)]
          ++ StdEncoding.EncodeToString r = _
    rw [he, ih r hr]
    rfl
  | case4 c1 c2 c3 c4 c5 rest hno _ =>
    have h0 : decodeStrict (c1 :: c2 :: c3 :: c4 :: c5 :: rest)
        = (match decodeQuad c1 c2 c3 c4, decodeStrict (c5 :: rest) with
            | some g, some r => some (g ++ r)
            | _, _ => none) := rfl
    rw [h0] at hd
    cases hg : decodeQuad c1 c2 c3 c4 with
    | none => simp [hg] at hd
    | some g =>
      cases hr : decodeStrict (c5 :: rest) with
      | none => simp [hg, hr] at hd
      | some r => exact absurd hr (fun hr => hno g r hg hr)
  | case5 t h1 h2 h3 =>
    rcases t with _ | ⟨c1, _ | ⟨c2, _ | ⟨c3, _ | ⟨c4, _ | ⟨c5, rest⟩⟩⟩⟩⟩
    · exact absurd rfl h1
    · exact absurd hd (by simp [decodeStrict])
    · exact absurd hd (by simp [decodeStrict])
    · exact absurd hd (by simp [decodeStrict])
    · exact absurd rfl (h2 c1 c2 c3 c4)
    · exact absurd rfl (h3 c1 c2 c3 c4 c5 rest)

end base64

/-!
## The string encoder of `encoding/json` against the JSON reader

For every valid UTF-8 string the text written by `json.appendString` is read back by
`json.readString` as the string itself.
-/

namespace utf8

/-- The size read off the first byte is at most four. -/
theorem decode_size_le (b0 : byte) (n : Nat) :
    ¬ (n + 4 < if b0.val < 224 then 2 else if b0.val < 240 then 3 else 4) := by
  split_ifs <;> omega

/-- Decoding looks at no more than the first `UTFMax` bytes. -/
theorem decode_take (s : GoString) :
    DecodeRuneInString (s.take (min s.length UTFMax)) = DecodeRuneInString s := by
  rcases s with _ | ⟨b0, _ | ⟨b1, _ | ⟨b2, _ | ⟨b3, r⟩⟩⟩⟩
  · rfl
  · rfl
  · rfl
  · rfl
  · have h1 := decode_size_le b0 0
    have h2 := decode_size_le b0 r.length
    simp only [Nat.zero_add] at h1
    have h3 : r.length + 1 + 1 + 1 + 1 = r.length + 4 := by omega
    simp [DecodeRuneInString, UTFMax, h1, h2, h3]

set_option maxHeartbeats 2000000 in
/-- What `DecodeRuneInString` returns on a string that starts with a non-ASCII byte. -/
theorem decode_shape (b0 : byte) (t : GoString) (h0 : 0x80 ≤ b0.val) :
    DecodeShape b0 t (DecodeRuneInString (b0 :: t)) := by
  generalize hd : DecodeRuneInString (b0 :: t) = d
  unfold DecodeShape
  unfold DecodeRuneInString at hd
  simp only [] at hd
  have hlo : 128 ≤ (if b0.val = 224 then 160 else if b0.val = 240 then 144 else 128) ∧
      (b0.val = 240 → 144 ≤ (if b0.val = 224 then 160 else if b0.val = 240 then 144 else 128)) := by
    split_ifs <;> omega
  have hhi : (if b0.val = 237 then 159 else if b0.val = 244 then 143 else 191) ≤ 191 := by
    split_ifs <;> omega
  have hsz : ((if b0.val < 224 then 2 else if b0.val < 240 then 3 else 4) = 2 ∧ b0.val < 224) ∨
      ((if b0.val < 224 then 2 else if b0.val < 240 then 3 else 4) = 3 ∧ 224 ≤ b0.val ∧ b0.val < 240) ∨
      ((if b0.val < 224 then 2 else if b0.val < 240 then 3 else 4) = 4 ∧ 240 ≤ b0.val) := by
    split_ifs <;> omega
  generalize (if b0.val = 224 then 160 else if b0.val = 240 then 144 else 128) = lo at hd hlo
  generalize (if b0.val = 237 then 159 else if b0.val = 244 then 143 else 191) = hi at hd hhi
  generalize (if b0.val < 224 then 2 else if b0.val < 240 then 3 else 4) = sz at hd hsz
  rcases t with _ | ⟨b1, _ | ⟨b2, _ | ⟨b3, r⟩⟩⟩
  · simp only [List.length_cons, List.length_nil] at hd
    split_ifs at hd <;> first | (left; with_reducible exact hd.symm) | omega
  · simp only [List.length_cons, List.length_nil, List.getD_cons_succ, List.getD_cons_zero] at hd
    split_ifs at hd <;> first | (left; with_reducible exact hd.symm) | omega | (right; left; with_reducible exact ⟨_, _, rfl, by omega, hd.symm⟩)
  · simp only [List.length_cons, List.length_nil, List.getD_cons_succ, List.getD_cons_zero] at hd
    split_ifs at hd <;> first | (left; with_reducible exact hd.symm) | omega | (right; left; with_reducible exact ⟨_, _, rfl, by omega, hd.symm⟩) | (right; right; left; with_reducible exact ⟨_, _, _, rfl, by omega, by omega, by omega, by omega, by omega, by omega, hd.symm⟩)
  · simp only [List.length_cons, List.length_nil, List.getD_cons_succ, List.getD_cons_zero] at hd
    split_ifs at hd <;> first | (left; with_reducible exact hd.symm) | omega | (right; left; with_reducible exact ⟨_, _, rfl, by omega, hd.symm⟩) | (right; right; left; with_reducible exact ⟨_, _, _, rfl, by omega, by omega, by omega, by omega, by omega, by omega, hd.symm⟩) | (right; right; right; with_reducible exact ⟨_, _, _, _, rfl, by omega, by omega, by omega, by omega, hd.symm⟩)
end utf8
/-- A byte is the byte of its value. -/
theorem mkByte_val (b : byte) : mkByte b.val = b := by
  apply Fin.ext
  show b.val % 256 = b.val
  omega

namespace json

/-- The closing quote ends the string. -/
theorem readItem_quote (rest : GoString) : readItem (0x22 :: rest) = some (none, rest) := rfl

/-- A byte that is no control character, quote or backslash is read as itself. -/
theorem readItem_plain (b : byte) (rest : GoString) (h1 : 0x20 ≤ b.val) (h2 : b.val ≠ 0x22)
    (h3 : b.val ≠ 0x5C) : readItem (b :: rest) = some (some [b], rest) := by
  show (if b.val = 0x22 then _ else if b.val < 0x20 then _ else if b.val ≠ 0x5C then _ else _) = _
  rw [if_neg h2, if_neg (by omega), if_pos h3]

/-- A two-character escape is read as the byte it stands for. -/
theorem readItem_escape (e c : byte) (rest : GoString) (he : e.val ≠ 0x75)
    (hc : unescape e = some c) : readItem (0x5C :: e :: rest) = some (some [c], rest) := by
  show (if e.val ≠ 0x75 then (unescape e).map (fun c => (some [c], rest)) else _) = _
  rw [if_pos he, hc]
  rfl

/-- A `\u` escape below the surrogates is read as the UTF-8 encoding of its value. -/
theorem readItem_u (h1 h2 h3 h4 : byte) (rest : GoString) (n : Nat)
    (hn : hex4 h1 h2 h3 h4 = some n) (hs : n < 0xD800) :
    readItem (0x5C :: 0x75 :: h1 :: h2 :: h3 :: h4 :: rest)
      = some (some (utf8.EncodeRune n), rest) := by
  show (match (hex4 h1 h2 h3 h4).map (fun n => (n, rest)) with
        | none => none
        | some (hi, rest2) =>
          if 0xD800 ≤ hi ∧ hi < 0xDC00 then
            match readLowSurrogate rest2 with
            | some (lo, rest3) =>
              some (some (utf8.EncodeRune (0x10000 + (hi - 0xD800) * 1024 + (lo - 0xDC00))),
                    rest3)
            | none => some (some (utf8.EncodeRune hi), rest2)
          else some (some (utf8.EncodeRune hi), rest2)) = _
  rw [hn]
  simp only [Option.map_some']
  rw [if_neg (by omega)]

/-- The digits of `json.hex` have the values of their positions. -/
theorem hexVal_hex (n : Nat) (hn : n < 16) : hexVal (hex.getD n 0) = some n := by
  interval_cases n <;> rfl

/-- The escape written for an ASCII byte is read back as that byte. -/
theorem readItem_escapeByte (b : byte) (rest : GoString) (hb : b.val < 0x80) :
    readItem (escapeByte b ++ rest) = some (some [b], rest) := by
  unfold escapeByte
  split_ifs with c1 c2 c3 c4 c5 c6
  · rcases c1 with c | c
    · have : b = 0x5C := Fin.ext c
      subst this
      rfl
    · have : b = 0x22 := Fin.ext c
      subst this
      rfl
  · have : b = 0x08 := Fin.ext c2
    subst this
    rfl
  · have : b = 0x0C := Fin.ext c3
    subst this
    rfl
  · have : b = 0x0A := Fin.ext c4
    subst this
    rfl
  · have : b = 0x0D := Fin.ext c5
    subst this
    rfl
  · have : b = 0x09 := Fin.ext c6
    subst this
    rfl
  · have h4 : hex4 0x30 0x30 (hex.getD (b.val / 16) 0) (hex.getD (b.val % 16) 0) = some b.val := by
      unfold hex4
      rw [hexVal_hex _ (by omega), hexVal_hex _ (by omega)]
      show some (0 * 4096 + 0 * 256 + b.val / 16 * 16 + b.val % 16) = some b.val
      congr 1
      omega
    rw [List.cons_append, List.cons_append, List.cons_append, List.cons_append, List.cons_append,
      List.cons_append, List.nil_append, readItem_u _ _ _ _ _ _ h4 (by omega)]
    unfold utf8.EncodeRune
    rw [if_pos hb, mkByte_val]


/-- An escape is not empty. -/
theorem escapeByte_length (b : byte) : 1 ≤ (escapeByte b).length := by
  unfold escapeByte
  split_ifs <;> simp

/-- Reading stops at the closing quote. -/
theorem readString_end (fuel : Nat) (s rest : GoString) (h : readItem s = some (none, rest)) :
    readString (fuel + 1) s = some ([], rest) := by
  simp only [readString, h]

/-- Reading one item and going on. -/
theorem readString_item (fuel : Nat) (s piece rest : GoString)
    (h : readItem s = some (some piece, rest)) :
    readString (fuel + 1) s = (readString fuel rest).map (fun p => (piece ++ p.1, p.2)) := by
  simp only [readString, h]

/-- A run of non-ASCII bytes is read as itself. -/
theorem readString_plain_append (xs rest : GoString) (fuel : Nat) (h : ∀ x ∈ xs, 0x80 ≤ x.val) :
    readString (fuel + xs.length) (xs ++ rest)
      = (readString fuel rest).map (fun p => (xs ++ p.1, p.2)) := by
  induction xs with
  | nil => simp
  | cons x xs ih =>
    have hx := h x (List.mem_cons_self _ _)
    rw [List.cons_append, List.length_cons, ← Nat.add_assoc,
      readString_item _ _ _ _ (readItem_plain x _ (by omega) (by omega) (by omega)),
      ih (fun y hy => h y (List.mem_cons_of_mem _ hy))]
    simp [Option.map_map, Function.comp_def]

/-- One step of the encoder on an ASCII byte. -/
theorem appendStringLoop_ascii (n : Nat) (b : byte) (t : GoString) (hb : b.val < 0x80) :
    appendStringLoop (n + 1) (b :: t)
      = (if htmlSafeSet b then [b] else escapeByte b) ++ appendStringLoop n t := by
  rw [appendStringLoop, if_pos hb]
  split_ifs <;> rfl

/-- One step of the encoder on a non-ASCII byte. -/
theorem appendStringLoop_rune (n : Nat) (b : byte) (t : GoString) (hb : ¬ b.val < 0x80) :
    appendStringLoop (n + 1) (b :: t)
      = if (utf8.DecodeRuneInString (b :: t)).1 = utf8.RuneError
            ∧ (utf8.DecodeRuneInString (b :: t)).2 = 1 then
          str "\\ufffd" ++ appendStringLoop n ((b :: t).drop (utf8.DecodeRuneInString (b :: t)).2)
        else if (utf8.DecodeRuneInString (b :: t)).1 = 0x2028
            ∨ (utf8.DecodeRuneInString (b :: t)).1 = 0x2029 then
          str "\\u202" ++ [hex.getD ((utf8.DecodeRuneInString (b :: t)).1 % 16) 0]
            ++ appendStringLoop n ((b :: t).drop (utf8.DecodeRuneInString (b :: t)).2)
        else (b :: t).take (utf8.DecodeRuneInString (b :: t)).2
            ++ appendStringLoop n ((b :: t).drop (utf8.DecodeRuneInString (b :: t)).2) := by
  rw [appendStringLoop, if_neg hb]
  simp only []
  rw [utf8.decode_take]


/-- One step of the validity check on an ASCII byte. -/
theorem validLoop_ascii (n : Nat) (b : byte) (t : GoString) (hb : b.val < 0x80) :
    utf8.validLoop (n + 1) (b :: t) = utf8.validLoop n t := by
  rw [utf8.validLoop, if_pos hb]

/-- One step of the validity check on a non-ASCII byte. -/
theorem validLoop_rune (n : Nat) (b : byte) (t : GoString) (hb : ¬ b.val < 0x80) :
    utf8.validLoop (n + 1) (b :: t)
      = if (utf8.DecodeRuneInString (b :: t)).1 = utf8.RuneError
            ∧ (utf8.DecodeRuneInString (b :: t)).2 = 1 then false
        else utf8.validLoop n ((b :: t).drop (utf8.DecodeRuneInString (b :: t)).2) := by
  rw [utf8.validLoop, if_neg hb]

/-- The bytes of `htmlSafeSet` need no escape in a JSON string. -/
theorem htmlSafeSet_plain (b : byte) (h : htmlSafeSet b = true) :
    0x20 ≤ b.val ∧ b.val ≠ 0x22 ∧ b.val ≠ 0x5C := by
  simp only [htmlSafeSet, decide_eq_true_eq] at h
  omega

/-- Fuel above a bound is a successor. -/
theorem fuel_succ (fuel m : Nat) (h : m < fuel) : ∃ k, fuel = k + 1 ∧ m ≤ k :=
  ⟨fuel - 1, by omega, by omega⟩

/-- Fuel above a sum splits into the summand and the rest. -/
theorem fuel_add (fuel m c : Nat) (h : c + m < fuel) : ∃ k, fuel = k + c ∧ m < k :=
  ⟨fuel - c, by omega, by omega⟩

/-- Reading a piece that is one item, then the rest of the encoding. -/
theorem readString_item_then (piece orig L rest s' : GoString) (fuel : Nat)
    (hitem : ∀ X, readItem (piece ++ X) = some (some orig, X)) (hp : 1 ≤ piece.length)
    (hf : (piece ++ L).length < fuel)
    (hrec : ∀ k, L.length < k → readString k (L ++ 0x22 :: rest) = some (s', rest)) :
    readString fuel (piece ++ L ++ 0x22 :: rest) = some (orig ++ s', rest) := by
  rw [List.length_append] at hf
  obtain ⟨k, rfl, hk⟩ := fuel_add fuel L.length 1 (by omega)
  rw [List.append_assoc, readString_item k _ orig _ (hitem _), hrec k hk]
  rfl

/-- Reading a piece of non-ASCII bytes, then the rest of the encoding. -/
theorem readString_plain_then (xs L rest s' : GoString) (fuel : Nat)
    (hx : ∀ x ∈ xs, 0x80 ≤ x.val) (hf : (xs ++ L).length < fuel)
    (hrec : ∀ k, L.length < k → readString k (L ++ 0x22 :: rest) = some (s', rest)) :
    readString fuel (xs ++ L ++ 0x22 :: rest) = some (xs ++ s', rest) := by
  rw [List.length_append] at hf
  obtain ⟨k, rfl, hk⟩ := fuel_add fuel L.length xs.length hf
  rw [List.append_assoc, readString_plain_append xs _ k hx, hrec k hk]
  rfl

/-- The escape written for U+2028 is read back as its UTF-8 encoding. -/
theorem readItem_u2028 (X : GoString) :
    readItem (str "\\u202" ++ [hex.getD (0x2028 % 16) 0] ++ X)
      = some (some [0xE2, 0x80, 0xA8], X) := rfl

/-- The escape written for U+2029 is read back as its UTF-8 encoding. -/
theorem readItem_u2029 (X : GoString) :
    readItem (str "\\u202" ++ [hex.getD (0x2029 % 16) 0] ++ X)
      = some (some [0xE2, 0x80, 0xA9], X) := rfl

/-- Round trip: what the encoder writes for a valid UTF-8 string, followed by the
closing quote, is read back as that string, with any fuel above the length of the
encoding. -/
theorem readString_appendStringLoop (n : Nat) : ∀ (s rest : GoString) (fuel : Nat),
    s.length ≤ n → utf8.validLoop n s = true → (appendStringLoop n s).length < fuel →
    readString fuel (appendStringLoop n s ++ 0x22 :: rest) = some (s, rest) := by
  induction n with
  | zero =>
    intro s rest fuel hl _ hf
    have hs : s = [] := List.length_eq_zero.mp (by omega)
    subst hs
    obtain ⟨k, rfl, _⟩ := fuel_succ fuel _ hf
    exact readString_end k _ rest (readItem_quote rest)
  | succ n ih =>
    intro s rest fuel hl hv hf
    rcases s with _ | ⟨b, t⟩
    · obtain ⟨k, rfl, _⟩ := fuel_succ fuel _ hf
      exact readString_end k _ rest (readItem_quote rest)
    · rw [List.length_cons] at hl
      by_cases hb : b.val < 0x80
      · rw [appendStringLoop_ascii n b t hb] at hf ⊢
        rw [validLoop_ascii n b t hb] at hv
        by_cases hsafe : htmlSafeSet b = true
        · rw [if_pos hsafe] at hf ⊢
          obtain ⟨h1, h2, h3⟩ := htmlSafeSet_plain b hsafe
          exact readString_item_then [b] [b] _ rest t fuel
            (fun X => readItem_plain b X h1 h2 h3) (Nat.le_refl 1) hf
            (fun k hk => ih t rest k (by omega) hv hk)
        · rw [if_neg hsafe] at hf ⊢
          exact readString_item_then (escapeByte b) [b] _ rest t fuel
            (fun X => readItem_escapeByte b X hb) (escapeByte_length b) hf
            (fun k hk => ih t rest k (by omega) hv hk)
      · rw [appendStringLoop_rune n b t hb] at hf ⊢
        rw [validLoop_rune n b t hb] at hv
        have hsh := utf8.decode_shape b t (by omega)
        generalize utf8.DecodeRuneInString (b :: t) = d at hsh hv hf ⊢
        unfold utf8.DecodeShape at hsh
        rcases hsh with h | ⟨b1, r, rfl, h1, rfl⟩ |
          ⟨b1, b2, r, rfl, h1, h1', h2, h2', h0, h0', rfl⟩ |
          ⟨b1, b2, b3, r, rfl, h1, h2, h3, hbig, rfl⟩
        · subst h
          simp at hv
        all_goals simp only [List.length_cons] at hl
        · have e1 : ¬ (b.val % 32 * 64 + b1.val % 64 = utf8.RuneError ∧ 2 = 1) :=
            fun h => absurd h.2 (by decide)
          have e2 : ¬ (b.val % 32 * 64 + b1.val % 64 = 0x2028
              ∨ b.val % 32 * 64 + b1.val % 64 = 0x2029) := by omega
          dsimp only at hv hf ⊢
          rw [if_neg e1] at hv hf ⊢
          rw [if_neg e2] at hf ⊢
          exact readString_plain_then [b, b1] _ rest r fuel
            (fun x hx => by
              rcases List.mem_cons.1 hx with rfl | hx
              · omega
              · rw [List.mem_singleton] at hx
                subst hx
                exact h1) hf
            (fun k hk => ih r rest k (by omega) hv hk)
        · have e1 : ¬ (b.val % 16 * 4096 + b1.val % 64 * 64 + b2.val % 64 = utf8.RuneError
              ∧ 3 = 1) := fun h => absurd h.2 (by decide)
          dsimp only at hv hf ⊢
          rw [if_neg e1] at hv hf ⊢
          by_cases e28 : b.val % 16 * 4096 + b1.val % 64 * 64 + b2.val % 64 = 0x2028
          · rw [if_pos (Or.inl e28), e28] at hf ⊢
            obtain rfl : b = 0xE2 := Fin.ext (by show b.val = 226; omega)
            obtain rfl : b1 = 0x80 := Fin.ext (by show b1.val = 128; omega)
            obtain rfl : b2 = 0xA8 := Fin.ext (by show b2.val = 168; omega)
            exact readString_item_then _ [0xE2, 0x80, 0xA8] _ rest r fuel
              readItem_u2028 (by decide) hf (fun k hk => ih r rest k (by omega) hv hk)
          · by_cases e29 : b.val % 16 * 4096 + b1.val % 64 * 64 + b2.val % 64 = 0x2029
            · rw [if_pos (Or.inr e29), e29] at hf ⊢
              obtain rfl : b = 0xE2 := Fin.ext (by show b.val = 226; omega)
              obtain rfl : b1 = 0x80 := Fin.ext (by show b1.val = 128; omega)
              obtain rfl : b2 = 0xA9 := Fin.ext (by show b2.val = 169; omega)
              exact readString_item_then _ [0xE2, 0x80, 0xA9] _ rest r fuel
                readItem_u2029 (by decide) hf (fun k hk => ih r rest k (by omega) hv hk)
            · rw [if_neg (not_or.2 ⟨e28, e29⟩)] at hf ⊢
              exact readString_plain_then [b, b1, b2] _ rest r fuel
                (fun x hx => by
                  rcases List.mem_cons.1 hx with rfl | hx
                  · omega
                  · rcases List.mem_cons.1 hx with rfl | hx
                    · exact h1
                    · rw [List.mem_singleton] at hx
                      subst hx
                      exact h2) hf
                (fun k hk => ih r rest k (by omega) hv hk)
        · have e1 : ¬ (b.val % 8 * 262144 + b1.val % 64 * 4096 + b2.val % 64 * 64 + b3.val % 64
              = utf8.RuneError ∧ 4 = 1) := fun h => absurd h.2 (by decide)
          have e2 : ¬ (b.val % 8 * 262144 + b1.val % 64 * 4096 + b2.val % 64 * 64 + b3.val % 64
                = 0x2028
              ∨ b.val % 8 * 262144 + b1.val % 64 * 4096 + b2.val % 64 * 64 + b3.val % 64
                = 0x2029) := by omega
          dsimp only at hv hf ⊢
          rw [if_neg e1] at hv hf ⊢
          rw [if_neg e2] at hf ⊢
          exact readString_plain_then [b, b1, b2, b3] _ rest r fuel
            (fun x hx => by
              rcases List.mem_cons.1 hx with rfl | hx
              · omega
              · rcases List.mem_cons.1 hx with rfl | hx
                · exact h1
                · rcases List.mem_cons.1 hx with rfl | hx
                  · exact h2
                  · rw [List.mem_singleton] at hx
                    subst hx
                    exact h3) hf
            (fun k hk => ih r rest k (by omega) hv hk)


/-- A value that starts with a quote is the string that follows. -/
theorem readValue_string (fuel : Nat) (rest s rest1 : GoString)
    (h : readString rest.length rest = some (s, rest1)) :
    readValue (fuel + 1) (0x22 :: rest) = some (Value.string s, rest1) := by
  show (readString rest.length rest).map (fun p => (Value.string p.1, p.2)) = _
  rw [h]
  rfl

/-- A value that starts with a brace and a quote is the object of the members that
follow. -/
theorem readValue_object (fuel : Nat) (rest : GoString) (ms : List (GoString × Value))
    (rest1 : GoString) (h : readMembers fuel (0x22 :: rest) = some (ms, rest1)) :
    readValue (fuel + 1) (0x7B :: 0x22 :: rest) = some (Value.object ms, rest1) := by
  show (readMembers fuel (0x22 :: rest)).map (fun p => (Value.object p.1, p.2)) = _
  rw [h]
  rfl

/-- The number 1 before a comma or a closing brace. -/
theorem readValue_one (fuel : Nat) (d : byte) (rest : GoString)
    (hd : d.val = 0x2C ∨ d.val = 0x7D) :
    readValue (fuel + 1) (0x31 :: d :: rest) = some (Value.number 1, d :: rest) := by
  rcases hd with h | h
  · obtain rfl : d = 0x2C := Fin.ext h
    rfl
  · obtain rfl : d = 0x7D := Fin.ext h
    rfl

/-- The last member of an object: a key, a colon, a value and the closing brace. -/
theorem readMembers_last (fuel : Nat) (rest key rest2 rest4 : GoString) (v : Value)
    (hk : readString rest.length rest = some (key, 0x3A :: rest2))
    (hv : readValue fuel rest2 = some (v, 0x7D :: rest4)) :
    readMembers (fuel + 1) (0x22 :: rest) = some ([(key, v)], rest4) := by
  show (match readString rest.length rest with
        | none => none
        | some (key, rest1) =>
          match skipSpace rest1 with
          | [] => none
          | colon :: rest2 =>
            if colon.val ≠ 0x3A then none
            else
              match readValue fuel rest2 with
              | none => none
              | some (v, rest3) =>
                match skipSpace rest3 with
                | [] => none
                | d :: rest4 =>
                  if d.val = 0x2C then
                    (readMembers fuel rest4).map
                      (fun (p : List (GoString × Value) × GoString) => ((key, v) :: p.1, p.2))
                  else if d.val = 0x7D then some ([(key, v)], rest4)
                  else none) = _
  rw [hk]
  show (match readValue fuel rest2 with
        | none => none
        | some (v, rest3) =>
          match skipSpace rest3 with
          | [] => none
          | d :: rest4 =>
            if d.val = 0x2C then
              (readMembers fuel rest4).map
                (fun (p : List (GoString × Value) × GoString) => ((key, v) :: p.1, p.2))
            else if d.val = 0x7D then some ([(key, v)], rest4)
            else none) = _
  rw [hv]
  rfl

/-- A member followed by a comma and further members. -/
theorem readMembers_more (fuel : Nat) (rest key rest2 rest4 rest5 : GoString) (v : Value)
    (ms : List (GoString × Value))
    (hk : readString rest.length rest = some (key, 0x3A :: rest2))
    (hv : readValue fuel rest2 = some (v, 0x2C :: rest4))
    (hm : readMembers fuel rest4 = some (ms, rest5)) :
    readMembers (fuel + 1) (0x22 :: rest) = some ((key, v) :: ms, rest5) := by
  show (match readString rest.length rest with
        | none => none
        | some (key, rest1) =>
          match skipSpace rest1 with
          | [] => none
          | colon :: rest2 =>
            if colon.val ≠ 0x3A then none
            else
              match readValue fuel rest2 with
              | none => none
              | some (v, rest3) =>
                match skipSpace rest3 with
                | [] => none
                | d :: rest4 =>
                  if d.val = 0x2C then
                    (readMembers fuel rest4).map
                      (fun (p : List (GoString × Value) × GoString) => ((key, v) :: p.1, p.2))
                  else if d.val = 0x7D then some ([(key, v)], rest4)
                  else none) = _
  rw [hk]
  show (match readValue fuel rest2 with
        | none => none
        | some (v, rest3) =>
          match skipSpace rest3 with
          | [] => none
          | d :: rest4 =>
            if d.val = 0x2C then
              (readMembers fuel rest4).map
                (fun (p : List (GoString × Value) × GoString) => ((key, v) :: p.1, p.2))
            else if d.val = 0x7D then some ([(key, v)], rest4)
            else none) = _
  rw [hv]
  show (readMembers fuel rest4).map (fun p => ((key, v) :: p.1, p.2)) = _
  rw [hm]
  rfl

/-- The text of the frame for `rawtx`, cut at the places where the reader looks. -/
theorem Marshal_blxrTx (rawtx : GoString) :
    (Marshal (sender.blxrTx rawtx)).1 =
      0x7B :: 0x22 :: (str "jsonrpc\"" ++ (0x3A :: 0x22 :: (str "2.0\"" ++
        (0x2C :: 0x22 :: (str "id\"" ++ (0x3A :: 0x31 :: 0x2C :: 0x22 :: (str "method\"" ++
          (0x3A :: 0x22 :: (str "blxr_tx\"" ++ (0x2C :: 0x22 :: (str "params\"" ++
            (0x3A :: 0x7B :: 0x22 :: (str "transaction\"" ++ (0x3A :: 0x22 ::
              (appendStringLoop rawtx.length rawtx ++ [0x22, 0x7D, 0x7D]))))))))))))))) := by
  have h : (Marshal (sender.blxrTx rawtx)).1 =
      str "\x7b\"jsonrpc\":\"2.0\",\"id\":1,\"method\":\"blxr_tx\",\"params\":\x7b\"transaction\":\""
        ++ (appendStringLoop rawtx.length rawtx ++ [0x22, 0x7D, 0x7D]) := by
    have h0 : ¬ (0 + 1 = 0) := by decide
    simp only [Marshal, sender.blxrTx, encodeMap, sortedEntries, encodeEntries, appendString,
      List.foldr, insertEntry, List.length_cons, List.length_nil, h0, if_false,
      List.append_assoc, List.cons_append, List.nil_append]
    rfl
  rw [h]
  rfl


/-- Reading the key `jsonrpc`. -/
theorem readString_jsonrpc (X : GoString) :
    readString (str "jsonrpc\"" ++ X).length (str "jsonrpc\"" ++ X) = some (str "jsonrpc", X) :=
  rfl

/-- Reading the version string. -/
theorem readString_version (X : GoString) :
    readString (str "2.0\"" ++ X).length (str "2.0\"" ++ X) = some (str "2.0", X) := rfl

/-- Reading the key `id`. -/
theorem readString_id (X : GoString) :
    readString (str "id\"" ++ X).length (str "id\"" ++ X) = some (str "id", X) := rfl

/-- Reading the key `method`. -/
theorem readString_method (X : GoString) :
    readString (str "method\"" ++ X).length (str "method\"" ++ X) = some (str "method", X) := rfl

/-- Reading the method name. -/
theorem readString_blxr_tx (X : GoString) :
    readString (str "blxr_tx\"" ++ X).length (str "blxr_tx\"" ++ X) = some (str "blxr_tx", X) :=
  rfl

/-- Reading the key `params`. -/
theorem readString_params (X : GoString) :
    readString (str "params\"" ++ X).length (str "params\"" ++ X) = some (str "params", X) := rfl

/-- Reading the key `transaction`. -/
theorem readString_transaction (X : GoString) :
    readString (str "transaction\"" ++ X).length (str "transaction\"" ++ X)
      = some (str "transaction", X) := rfl

/-- The frame for a valid UTF-8 `rawtx` parses to the request object. -/
theorem Parse_Marshal_blxrTx (rawtx : GoString) (hv : utf8.ValidString rawtx = true) :
    Parse (Marshal (sender.blxrTx rawtx)).1 = some (Value.object
      [(str "jsonrpc", Value.string (str "2.0")), (str "id", Value.number 1),
       (str "method", Value.string (str "blxr_tx")),
       (str "params", Value.object [(str "transaction", Value.string rawtx)])]) := by
  rw [Marshal_blxrTx]
  generalize hL : appendStringLoop rawtx.length rawtx = L
  have hread : readString (L ++ [0x22, 0x7D, 0x7D]).length (L ++ [0x22, 0x7D, 0x7D])
      = some (rawtx, [0x7D, 0x7D]) := by
    subst hL
    exact readString_appendStringLoop _ rawtx _ _ (Nat.le_refl _) hv (by simp)
  unfold Parse
  obtain ⟨k, hk⟩ : ∃ k, (0x7B :: 0x22 :: (str "jsonrpc\"" ++ (0x3A :: 0x22 :: (str "2.0\"" ++
        (0x2C :: 0x22 :: (str "id\"" ++ (0x3A :: 0x31 :: 0x2C :: 0x22 :: (str "method\"" ++
          (0x3A :: 0x22 :: (str "blxr_tx\"" ++ (0x2C :: 0x22 :: (str "params\"" ++
            (0x3A :: 0x7B :: 0x22 :: (str "transaction\"" ++ (0x3A :: 0x22 ::
              (L ++ [0x22, 0x7D, 0x7D]))))))))))))))) : GoString).length + 1 = k + 8 :=
    ⟨_, rfl⟩
  rw [hk]
  have h5 := readValue_string k _ _ _ hread
  have h4 := readMembers_last (k + 1) _ _ _ _ _ (readString_transaction _) h5
  have h3 := readValue_object (k + 2) _ _ _ h4
  have h2 := readMembers_last (k + 3) _ _ _ _ _ (readString_params _) h3
  have h1 := readMembers_more (k + 4) _ _ _ _ _ _ _ (readString_method _)
    (readValue_string (k + 3) _ _ _ (readString_blxr_tx _)) h2
  have h0 := readMembers_more (k + 5) _ _ _ _ _ _ _ (readString_id _)
    (readValue_one (k + 4) 0x2C _ (Or.inl rfl)) h1
  have hm := readMembers_more (k + 6) _ _ _ _ _ _ _ (readString_jsonrpc _)
    (readValue_string (k + 5) _ _ _ (readString_version _)) h0
  have hval := readValue_object (k + 7) _ _ _ hm
  rw [hval]
  rfl

end json

/-!
## The claims about `NewSender` and `Send`
-/

namespace sender

/-- C1: for every list of options, when the account id is empty after the options are
applied, NewSender returns no sender and the error "account id is unset"; when the
account id is non-empty and the secret hash is empty, it returns no sender and the error
"secret hash is unset"; in both cases the world is returned as it was, so no dial
was made (and the default dialer was not touched). -/
theorem NewSender_unset_credentials (dial : websocket.Dial) (opts : List Option) (w : World) :
    ((applyOptions opts emptySender).accountID = [] →
      NewSender dial opts w = ((none, some { s := str "account id is unset" }), w)) ∧
    ((applyOptions opts emptySender).accountID ≠ [] →
      (applyOptions opts emptySender).secretHash = [] →
      NewSender dial opts w = ((none, some { s := str "secret hash is unset" }), w)) := by
  constructor
  · intro h
    simp [NewSender, h, errors.New]
  · intro h1 h2
    simp [NewSender, h1, h2, errors.New]

theorem NewSender_unset_credentials_witness :
    NewSender (acceptingDial []) [SecretHash (str "B")] freshWorld
        = ((none, some { s := str "account id is unset" }), freshWorld) ∧
    NewSender (acceptingDial []) [AccountID (str "A"), URL (str "wss://x")] freshWorld
        = ((none, some { s := str "secret hash is unset" }), freshWorld) :=
  ⟨(NewSender_unset_credentials (acceptingDial []) [SecretHash (str "B")] freshWorld).1
      (by decide),
   (NewSender_unset_credentials (acceptingDial [])
      [AccountID (str "A"), URL (str "wss://x")] freshWorld).2 (by decide) (by decide)⟩

/-- What NewSender does once the credentials are set: the default dialer gets the
insecure TLS configuration, one dial is logged, and the dial's result decides. -/
theorem NewSender_dial (dial : websocket.Dial) (opts : List Option) (w : World)
    (h1 : (applyOptions opts emptySender).accountID ≠ [])
    (h2 : (applyOptions opts emptySender).secretHash ≠ []) :
    NewSender dial opts w =
      (match dial { w.DefaultDialer with TLSClientConfig := some { InsecureSkipVerify := true } }
          (if (applyOptions opts emptySender).url = [] then CloudWS
            else (applyOptions opts emptySender).url)
          [(str "Authorization", [base64.StdEncoding.EncodeToString
            ((applyOptions opts emptySender).accountID ++ str ":"
              ++ (applyOptions opts emptySender).secretHash)])] with
        | .error err => (none, some err)
        | .ok conn => (some { applyOptions opts emptySender with conn := some conn }, none),
       { DefaultDialer :=
           { w.DefaultDialer with TLSClientConfig := some { InsecureSkipVerify := true } },
         dials := w.dials ++
           [({ w.DefaultDialer with TLSClientConfig := some { InsecureSkipVerify := true } },
             if (applyOptions opts emptySender).url = [] then CloudWS
               else (applyOptions opts emptySender).url,
             [(str "Authorization", [base64.StdEncoding.EncodeToString
               ((applyOptions opts emptySender).accountID ++ str ":"
                 ++ (applyOptions opts emptySender).secretHash)])])] }) := by
  simp only [NewSender, h1, h2, if_false]
  split <;> simp_all

/-- Options that leave the url alone leave it alone when applied in a row. -/
theorem applyOptions_url (opts : List Option) (s : Sender)
    (h : ∀ o ∈ opts, ∀ t : Sender, (o t).url = t.url) : (applyOptions opts s).url = s.url := by
  induction opts generalizing s with
  | nil => rfl
  | cons o os ih =>
    have h1 := ih (o s) (fun p hp t => h p (List.mem_cons_of_mem _ hp) t)
    have h2 := h o (List.mem_cons_self _ _) s
    simp only [applyOptions, List.foldl_cons] at h1 ⊢
    rw [h1, h2]

/-- Applying a concatenation of option lists. -/
theorem applyOptions_append (xs ys : List Option) (s : Sender) :
    applyOptions (xs ++ ys) s = applyOptions ys (applyOptions xs s) := by
  simp [applyOptions, List.foldl_append]

/-- C2: for every non-empty account id a and non-empty secret hash b left by the
options, the one dial NewSender makes carries a header whose only entry is
Authorization, with a single value h, and h is the standard padded base64 encoding of
the bytes of a ++ ":" ++ b: it is what base64.StdEncoding.EncodeToString gives, a reader
of standard padded base64 reads it back as exactly a ++ ":" ++ b, it is the only text
that reads so, and its length is four characters for every three bytes, rounded up; the
encoding of "A:B" is "QTpC" and, with padding, that of "A:BC" is "QTpCQw==". -/
theorem NewSender_authorization_header (dial : websocket.Dial) (opts : List Option) (w : World)
    (a b : GoString) (ha : (applyOptions opts emptySender).accountID = a)
    (hb : (applyOptions opts emptySender).secretHash = b) (ha0 : a ≠ []) (hb0 : b ≠ []) :
    (∃ d u h, (NewSender dial opts w).2.dials
        = w.dials ++ [(d, u, [(str "Authorization", [h])])] ∧
      h = base64.StdEncoding.EncodeToString (a ++ str ":" ++ b) ∧
      base64.decodeStrict h = some (a ++ str ":" ++ b) ∧
      (∀ h', base64.decodeStrict h' = some (a ++ str ":" ++ b) → h' = h) ∧
      h.length = 4 * (((a ++ str ":" ++ b).length + 2) / 3)) ∧
    base64.StdEncoding.EncodeToString (str "A" ++ str ":" ++ str "B") = str "QTpC" ∧
    base64.StdEncoding.EncodeToString (str "A" ++ str ":" ++ str "BC") = str "QTpCQw==" := by
  subst ha hb
  rw [NewSender_dial dial opts w ha0 hb0]
  exact ⟨⟨_, _, _, rfl, rfl, base64.decodeStrict_EncodeToString _,
    fun h' hd => (base64.EncodeToString_of_decodeStrict h' _ hd).symm,
    base64.length_EncodeToString _⟩, by decide, by decide⟩

theorem NewSender_authorization_header_witness :
    (∃ d u h, (NewSender refusingDial [AccountID (str "A"), SecretHash (str "B")]
        freshWorld).2.dials
        = freshWorld.dials ++ [(d, u, [(str "Authorization", [h])])] ∧
      h = base64.StdEncoding.EncodeToString (str "A" ++ str ":" ++ str "B") ∧
      base64.decodeStrict h = some (str "A" ++ str ":" ++ str "B") ∧
      (∀ h', base64.decodeStrict h' = some (str "A" ++ str ":" ++ str "B") → h' = h) ∧
      h.length = 4 * (((str "A" ++ str ":" ++ str "B").length + 2) / 3)) ∧
    base64.StdEncoding.EncodeToString (str "A" ++ str ":" ++ str "B") = str "QTpC" ∧
    base64.StdEncoding.EncodeToString (str "A" ++ str ":" ++ str "BC") = str "QTpCQw==" :=
  NewSender_authorization_header refusingDial [AccountID (str "A"), SecretHash (str "B")]
    freshWorld (str "A") (str "B") (by decide) (by decide) (by decide) (by decide)

/-- C3, as stated, fails: with the option URL("") supplied NewSender does not dial
the supplied value "" but the default endpoint. -/
theorem NewSender_empty_URL_dials_CloudWS :
    (NewSender refusingDial [AccountID (str "A"), SecretHash (str "B"), URL []]
        freshWorld).2.dials.map (fun d => d.2.1) = [str "wss://api.blxrbdn.com/ws"] ∧
    (NewSender refusingDial [AccountID (str "A"), SecretHash (str "B"), URL []]
        freshWorld).2.dials.map (fun d => d.2.1) ≠ [[]] := by
  decide

/-- C3, amended: with non-empty credentials NewSender makes one dial; when no option
changes the url (no URL option is supplied) it dials "wss://api.blxrbdn.com/ws"; when
URL(u) is supplied and no later option changes the url, it dials u if u is non-empty and
the default endpoint if u is empty. -/
theorem NewSender_dialed_url (dial : websocket.Dial) (opts : List Option) (w : World)
    (h1 : (applyOptions opts emptySender).accountID ≠ [])
    (h2 : (applyOptions opts emptySender).secretHash ≠ []) :
    ((∀ o ∈ opts, ∀ t : Sender, (o t).url = t.url) →
      ∃ d h, (NewSender dial opts w).2.dials
        = w.dials ++ [(d, str "wss://api.blxrbdn.com/ws", h)]) ∧
    (∀ (u : GoString) (before after : List Option), opts = before ++ URL u :: after →
      (∀ o ∈ after, ∀ t : Sender, (o t).url = t.url) →
      ∃ d h, (NewSender dial opts w).2.dials
        = w.dials ++ [(d, if u = [] then str "wss://api.blxrbdn.com/ws" else u, h)]) := by
  rw [NewSender_dial dial opts w h1 h2]
  constructor
  · intro h
    have hu : (applyOptions opts emptySender).url = [] := applyOptions_url opts emptySender h
    rw [hu]
    exact ⟨_, _, rfl⟩
  · intro u before after hopts h
    have hu : (applyOptions opts emptySender).url = u := by
      rw [hopts, applyOptions_append]
      show (applyOptions after (URL u (applyOptions before emptySender))).url = u
      rw [applyOptions_url after _ h]
      rfl
    rw [hu]
    exact ⟨_, _, rfl⟩

theorem NewSender_dialed_url_witness :
    (∃ d h, (NewSender refusingDial [AccountID (str "A"), SecretHash (str "B")]
        freshWorld).2.dials = freshWorld.dials ++ [(d, str "wss://api.blxrbdn.com/ws", h)]) ∧
    (∃ d h, (NewSender refusingDial
        [URL (str "wss://a"), AccountID (str "A"), URL (str "wss://b"), SecretHash (str "B")]
        freshWorld).2.dials
      = freshWorld.dials ++
          [(d, if str "wss://b" = [] then str "wss://api.blxrbdn.com/ws" else str "wss://b", h)]) :=
  ⟨(NewSender_dialed_url refusingDial [AccountID (str "A"), SecretHash (str "B")] freshWorld
      (by decide) (by decide)).1
      (fun o ho t => by
        rcases List.mem_cons.1 ho with rfl | ho
        · rfl
        · rw [List.mem_singleton] at ho
          subst ho
          rfl),
   (NewSender_dialed_url refusingDial
      [URL (str "wss://a"), AccountID (str "A"), URL (str "wss://b"), SecretHash (str "B")]
      freshWorld (by decide) (by decide)).2 (str "wss://b")
      [URL (str "wss://a"), AccountID (str "A")] [SecretHash (str "B")] rfl
      (fun o ho t => by
        rw [List.mem_singleton] at ho
        subst ho
        rfl)⟩

/-- C9: with non-empty account id and secret hash NewSender makes exactly one dial
(the log of dials grows by one entry); when that dial fails NewSender returns no sender
and the dial's error; when it succeeds NewSender returns no error and the configured
sender (account id, secret hash, url and log as the options left them) holding the
connection the dial returned; so the result is never a sender together with an error,
nor a sender without a connection. -/
theorem NewSender_all_or_nothing (dial : websocket.Dial) (opts : List Option) (w : World)
    (h1 : (applyOptions opts emptySender).accountID ≠ [])
    (h2 : (applyOptions opts emptySender).secretHash ≠ []) :
    ∃ d u h, (NewSender dial opts w).2.dials = w.dials ++ [(d, u, h)] ∧
      (NewSender dial opts w).1 =
        (match dial d u h with
          | .error err => (none, some err)
          | .ok conn => (some { applyOptions opts emptySender with conn := some conn }, none)) ∧
      (((NewSender dial opts w).1.1 = none ∧ (NewSender dial opts w).1.2 ≠ none) ∨
        (∃ s, (NewSender dial opts w).1.1 = some s ∧ s.conn ≠ none ∧
          (NewSender dial opts w).1.2 = none)) := by
  rw [NewSender_dial dial opts w h1 h2]
  refine ⟨_, _, _, rfl, rfl, ?_⟩
  split
  · left
    simp
  · right
    exact ⟨_, rfl, by simp, rfl⟩

theorem NewSender_all_or_nothing_witness :
    ∃ d u h, (NewSender (acceptingDial [str "ok"]) [AccountID (str "A"), SecretHash (str "B")]
        freshWorld).2.dials = freshWorld.dials ++ [(d, u, h)] ∧
      (NewSender (acceptingDial [str "ok"]) [AccountID (str "A"), SecretHash (str "B")]
          freshWorld).1 =
        (match acceptingDial [str "ok"] d u h with
          | .error err => (none, some err)
          | .ok conn =>
            (some { applyOptions [AccountID (str "A"), SecretHash (str "B")] emptySender
                      with conn := some conn }, none)) ∧
      (((NewSender (acceptingDial [str "ok"]) [AccountID (str "A"), SecretHash (str "B")]
          freshWorld).1.1 = none ∧
        (NewSender (acceptingDial [str "ok"]) [AccountID (str "A"), SecretHash (str "B")]
          freshWorld).1.2 ≠ none) ∨
        (∃ s, (NewSender (acceptingDial [str "ok"]) [AccountID (str "A"), SecretHash (str "B")]
          freshWorld).1.1 = some s ∧ s.conn ≠ none ∧
          (NewSender (acceptingDial [str "ok"]) [AccountID (str "A"), SecretHash (str "B")]
            freshWorld).1.2 = none)) :=
  NewSender_all_or_nothing (acceptingDial [str "ok"]) [AccountID (str "A"), SecretHash (str "B")]
    freshWorld (by decide) (by decide)

/-- C10 fails on the code: starting from the library's default dialer (no TLS client
configuration), a call of NewSender with valid credentials leaves the shared default
dialer with a TLS configuration that skips certificate verification. -/
theorem NewSender_overwrites_DefaultDialer :
    freshWorld.DefaultDialer = { TLSClientConfig := none } ∧
    (NewSender refusingDial [AccountID (str "A"), SecretHash (str "B")]
        freshWorld).2.DefaultDialer
      = { TLSClientConfig := some { InsecureSkipVerify := true } } ∧
    (NewSender refusingDial [AccountID (str "A"), SecretHash (str "B")]
        freshWorld).2.DefaultDialer ≠ freshWorld.DefaultDialer := by
  decide

/-- Send on a sender that holds a connection: the marshalled request is written as one
text frame; a failed write ends the call, otherwise one read decides the result. -/
theorem Send_conn (s : Sender) (c : websocket.Conn) (rawtx : GoString) (hc : s.conn = some c) :
    s.Send rawtx =
      (match c.writeErrs.headD none with
        | some err =>
          (Ret.returned ([], some err),
           { s with conn := some { c with
               writeErrs := c.writeErrs.tail,
               writeCalls := c.writeCalls
                 ++ [(websocket.TextMessage, (json.Marshal (blxrTx rawtx)).1)] } })
        | none =>
          ((match c.incoming.head? with
            | none => Ret.blocked
            | some (_, _, some err) => Ret.returned ([], some err)
            | some (_, resp, none) => Ret.returned (resp, none)),
           { s with conn := some (websocket.Conn.mk c.writeErrs.tail c.incoming.tail
               (c.writeCalls ++ [(websocket.TextMessage, (json.Marshal (blxrTx rawtx)).1)])
               (c.readCalls + 1)) })) := by
  have hm : json.Marshal (blxrTx rawtx) = ((json.Marshal (blxrTx rawtx)).1, none) := rfl
  unfold Sender.Send
  simp only []
  rw [hm]
  simp only [hc, websocket.Conn.WriteMessage, websocket.Conn.ReadMessage]
  cases hw : c.writeErrs.headD none with
  | some err => rfl
  | none =>
    simp only []
    cases hr : c.incoming.head? with
    | none => rfl
    | some m =>
      obtain ⟨t, resp, err⟩ := m
      cases err <;> rfl

/-- C5: for every raw transaction and every reply payload r, when the connection
accepts the write and the next incoming frame carries r (with any message type and no
error), Send returns (r, nil), r being returned as it came, and the call makes exactly
one read, which takes exactly that frame off the incoming queue. -/
theorem Send_returns_reply_verbatim (s : Sender) (c : websocket.Conn) (rawtx r : GoString)
    (t : Int) (hc : s.conn = some c) (hw : c.writeErrs.headD none = none)
    (hr : c.incoming.head? = some (t, r, none)) :
    (s.Send rawtx).1 = Ret.returned (r, none) ∧
    ∃ c1, (s.Send rawtx).2.conn = some c1 ∧ c1.readCalls = c.readCalls + 1 ∧
      c1.incoming = c.incoming.tail := by
  rw [Send_conn s c rawtx hc, hw, hr]
  exact ⟨rfl, _, rfl, rfl, rfl⟩

theorem Send_returns_reply_verbatim_witness :
    ((senderWith [(1, str "\x7b\"error\":not json", none)] []).Send (str "deadbeef")).1
      = Ret.returned (str "\x7b\"error\":not json", none) ∧
    ∃ c1, ((senderWith [(1, str "\x7b\"error\":not json", none)] []).Send
        (str "deadbeef")).2.conn = some c1 ∧ c1.readCalls = 0 + 1 ∧
      c1.incoming = [(1, str "\x7b\"error\":not json", (none : error))].tail :=
  Send_returns_reply_verbatim (senderWith [(1, str "\x7b\"error\":not json", none)] [])
    { writeErrs := [], incoming := [(1, str "\x7b\"error\":not json", none)],
      writeCalls := [], readCalls := 0 }
    (str "deadbeef") (str "\x7b\"error\":not json") 1 rfl rfl rfl

/-- C6: for every raw transaction, when the connection's write fails with an error,
Send returns the empty string and that error, having handed one frame to the
connection and made no read (the read count and the incoming queue are as before). -/
theorem Send_write_failure (s : Sender) (c : websocket.Conn) (rawtx : GoString)
    (err : errorString) (hc : s.conn = some c) (hw : c.writeErrs.headD none = some err) :
    (s.Send rawtx).1 = Ret.returned ([], some err) ∧
    ∃ c1, (s.Send rawtx).2.conn = some c1 ∧ c1.readCalls = c.readCalls ∧
      c1.incoming = c.incoming ∧ c1.writeCalls.length = c.writeCalls.length + 1 := by
  rw [Send_conn s c rawtx hc, hw]
  exact ⟨rfl, _, rfl, rfl, rfl, by simp⟩

theorem Send_write_failure_witness :
    ((senderWith [(1, str "ok", none)] [some { s := str "closed" }]).Send (str "deadbeef")).1
      = Ret.returned ([], some { s := str "closed" }) ∧
    ∃ c1, ((senderWith [(1, str "ok", none)] [some { s := str "closed" }]).Send
        (str "deadbeef")).2.conn = some c1 ∧ c1.readCalls = 0 ∧
      c1.incoming = [(1, str "ok", none)] ∧
      c1.writeCalls.length = ([] : List (Int × GoString)).length + 1 :=
  Send_write_failure (senderWith [(1, str "ok", none)] [some { s := str "closed" }])
    { writeErrs := [some { s := str "closed" }], incoming := [(1, str "ok", none)],
      writeCalls := [], readCalls := 0 }
    (str "deadbeef") { s := str "closed" } rfl rfl

/-- C7: for every raw transaction, when the write succeeds and the read that follows
fails with an error, Send returns the empty string and that error; exactly one frame
was handed to the connection and exactly one read was made (no retry of either). -/
theorem Send_read_failure (s : Sender) (c : websocket.Conn) (rawtx p : GoString) (t : Int)
    (err : errorString) (hc : s.conn = some c) (hw : c.writeErrs.headD none = none)
    (hr : c.incoming.head? = some (t, p, some err)) :
    (s.Send rawtx).1 = Ret.returned ([], some err) ∧
    ∃ c1, (s.Send rawtx).2.conn = some c1 ∧ c1.readCalls = c.readCalls + 1 ∧
      c1.writeCalls
        = c.writeCalls ++ [(websocket.TextMessage, (json.Marshal (blxrTx rawtx)).1)] := by
  rw [Send_conn s c rawtx hc, hw, hr]
  exact ⟨rfl, _, rfl, rfl, rfl⟩

theorem Send_read_failure_witness :
    ((senderWith [(-1, [], some { s := str "EOF" })] []).Send (str "deadbeef")).1
      = Ret.returned ([], some { s := str "EOF" }) ∧
    ∃ c1, ((senderWith [(-1, [], some { s := str "EOF" })] []).Send (str "deadbeef")).2.conn
        = some c1 ∧ c1.readCalls = 0 + 1 ∧
      c1.writeCalls
        = [] ++ [(websocket.TextMessage, (json.Marshal (blxrTx (str "deadbeef"))).1)] :=
  Send_read_failure (senderWith [(-1, [], some { s := str "EOF" })] [])
    { writeErrs := [], incoming := [(-1, [], some { s := str "EOF" })],
      writeCalls := [], readCalls := 0 }
    (str "deadbeef") [] (-1) { s := str "EOF" } rfl rfl rfl

/-- C8: for all raw transactions t1, t2 and replies r1, r2, on a connection whose
incoming queue holds r1 then r2 and which accepts the two writes, Send(t1) followed by
Send(t2) return r1 and r2 in that order; each call takes exactly one frame off the queue,
makes exactly one read and hands exactly one frame (its own request) to the connection. -/
theorem Send_twice_in_call_order (s : Sender) (c : websocket.Conn) (t1 t2 r1 r2 : GoString)
    (m1 m2 : Int) (rest : List (Int × GoString × error)) (hc : s.conn = some c)
    (hw1 : c.writeErrs.headD none = none) (hw2 : c.writeErrs.tail.headD none = none)
    (hq : c.incoming = (m1, r1, none) :: (m2, r2, none) :: rest) :
    (s.Send t1).1 = Ret.returned (r1, none) ∧
    ((s.Send t1).2.Send t2).1 = Ret.returned (r2, none) ∧
    ∃ c1 c2, (s.Send t1).2.conn = some c1 ∧ ((s.Send t1).2.Send t2).2.conn = some c2 ∧
      c1.incoming = (m2, r2, none) :: rest ∧ c2.incoming = rest ∧
      c1.readCalls = c.readCalls + 1 ∧ c2.readCalls = c.readCalls + 2 ∧
      c1.writeCalls
        = c.writeCalls ++ [(websocket.TextMessage, (json.Marshal (blxrTx t1)).1)] ∧
      c2.writeCalls
        = c.writeCalls ++ [(websocket.TextMessage, (json.Marshal (blxrTx t1)).1),
                           (websocket.TextMessage, (json.Marshal (blxrTx t2)).1)] := by
  have h1 := Send_conn s c t1 hc
  rw [hw1, hq] at h1
  simp only [List.head?_cons, List.tail_cons] at h1
  have h2 := Send_conn (s.Send t1).2 _ t2 (by rw [h1])
  simp only [hw2, List.head?_cons, List.tail_cons] at h2
  rw [h2, h1]
  exact ⟨rfl, rfl, _, _, rfl, rfl, rfl, rfl, rfl, rfl, rfl, by simp⟩

theorem Send_twice_in_call_order_witness :
    ((senderWith [(1, str "one", none), (1, str "two", none)] []).Send (str "aa")).1
      = Ret.returned (str "one", none) ∧
    (((senderWith [(1, str "one", none), (1, str "two", none)] []).Send (str "aa")).2.Send
      (str "bb")).1 = Ret.returned (str "two", none) ∧
    ∃ c1 c2,
      ((senderWith [(1, str "one", none), (1, str "two", none)] []).Send (str "aa")).2.conn
        = some c1 ∧
      (((senderWith [(1, str "one", none), (1, str "two", none)] []).Send (str "aa")).2.Send
        (str "bb")).2.conn = some c2 ∧
      c1.incoming = (1, str "two", none) :: [] ∧ c2.incoming = [] ∧
      c1.readCalls = 0 + 1 ∧ c2.readCalls = 0 + 2 ∧
      c1.writeCalls
        = [] ++ [(websocket.TextMessage, (json.Marshal (blxrTx (str "aa"))).1)] ∧
      c2.writeCalls
        = [] ++ [(websocket.TextMessage, (json.Marshal (blxrTx (str "aa"))).1),
                 (websocket.TextMessage, (json.Marshal (blxrTx (str "bb"))).1)] :=
  Send_twice_in_call_order (senderWith [(1, str "one", none), (1, str "two", none)] [])
    { writeErrs := [], incoming := [(1, str "one", none), (1, str "two", none)],
      writeCalls := [], readCalls := 0 }
    (str "aa") (str "bb") (str "one") (str "two") 1 1 [] rfl rfl rfl rfl

set_option maxRecDepth 100000 in
/-- C4, as stated, fails: for the raw transaction consisting of the single byte 0xFF
(not valid UTF-8) the one frame Send writes is a text frame whose params.transaction,
when the frame is parsed as JSON, is the three bytes of U+FFFD and not the raw
transaction. -/
theorem Send_frame_invalid_UTF8 :
    ((senderWith [(1, str "ok", none)] []).Send [0xFF]).2.conn.map (fun c => c.writeCalls)
      = some [(websocket.TextMessage,
          str "\x7b\"jsonrpc\":\"2.0\",\"id\":1,\"method\":\"blxr_tx\",\"params\":\x7b\"transaction\":\"\\ufffd\"\x7d\x7d")] ∧
    json.Parse
        (str "\x7b\"jsonrpc\":\"2.0\",\"id\":1,\"method\":\"blxr_tx\",\"params\":\x7b\"transaction\":\"\\ufffd\"\x7d\x7d")
      = some (json.Value.object
          [(str "jsonrpc", json.Value.string (str "2.0")), (str "id", json.Value.number 1),
           (str "method", json.Value.string (str "blxr_tx")),
           (str "params", json.Value.object
              [(str "transaction", json.Value.string [0xEF, 0xBF, 0xBD])])]) ∧
    json.Parse
        (str "\x7b\"jsonrpc\":\"2.0\",\"id\":1,\"method\":\"blxr_tx\",\"params\":\x7b\"transaction\":\"\\ufffd\"\x7d\x7d")
      ≠ some (json.Value.object
          [(str "jsonrpc", json.Value.string (str "2.0")), (str "id", json.Value.number 1),
           (str "method", json.Value.string (str "blxr_tx")),
           (str "params", json.Value.object
              [(str "transaction", json.Value.string [0xFF])])]) := by
  refine ⟨by decide, rfl, ?_⟩
  intro h
  have h2 : json.Parse
        (str "\x7b\"jsonrpc\":\"2.0\",\"id\":1,\"method\":\"blxr_tx\",\"params\":\x7b\"transaction\":\"\\ufffd\"\x7d\x7d")
      = some (json.Value.object
          [(str "jsonrpc", json.Value.string (str "2.0")), (str "id", json.Value.number 1),
           (str "method", json.Value.string (str "blxr_tx")),
           (str "params", json.Value.object
              [(str "transaction", json.Value.string [0xEF, 0xBF, 0xBD])])]) := rfl
  rw [h2] at h
  simp at h

/-- C4, amended: for every raw transaction that is valid UTF-8, Send on a sender holding
a connection hands exactly one frame to the connection, a text frame, which parsed as
JSON is the object with exactly the members jsonrpc = "2.0", id = 1, method =
"blxr_tx" and params = the object with the one member transaction = the raw
transaction; and for the raw transaction "deadbeef" the frame text is
{"jsonrpc":"2.0","id":1,"method":"blxr_tx","params":{"transaction":"deadbeef"}}. -/
theorem Send_frame_valid_UTF8 (s : Sender) (c : websocket.Conn) (rawtx : GoString)
    (hc : s.conn = some c) (hv : utf8.ValidString rawtx = true) :
    (∃ c1, (s.Send rawtx).2.conn = some c1 ∧
      c1.writeCalls
        = c.writeCalls ++ [(websocket.TextMessage, (json.Marshal (blxrTx rawtx)).1)]) ∧
    json.Parse (json.Marshal (blxrTx rawtx)).1
      = some (json.Value.object
          [(str "jsonrpc", json.Value.string (str "2.0")), (str "id", json.Value.number 1),
           (str "method", json.Value.string (str "blxr_tx")),
           (str "params", json.Value.object [(str "transaction", json.Value.string rawtx)])]) ∧
    (json.Marshal (blxrTx (str "deadbeef"))).1
      = str "\x7b\"jsonrpc\":\"2.0\",\"id\":1,\"method\":\"blxr_tx\",\"params\":\x7b\"transaction\":\"deadbeef\"\x7d\x7d" := by
  refine ⟨?_, json.Parse_Marshal_blxrTx rawtx hv, by decide⟩
  rw [Send_conn s c rawtx hc]
  cases c.writeErrs.headD none with
  | some err => exact ⟨_, rfl, rfl⟩
  | none => exact ⟨_, rfl, rfl⟩

theorem Send_frame_valid_UTF8_witness :
    (∃ c1, ((senderWith [(1, str "ok", none)] []).Send (str "0x \"é\"\n<€>\u2028😀")).2.conn
        = some c1 ∧
      c1.writeCalls
        = [] ++ [(websocket.TextMessage,
            (json.Marshal (blxrTx (str "0x \"é\"\n<€>\u2028😀"))).1)]) ∧
    json.Parse (json.Marshal (blxrTx (str "0x \"é\"\n<€>\u2028😀"))).1
      = some (json.Value.object
          [(str "jsonrpc", json.Value.string (str "2.0")), (str "id", json.Value.number 1),
           (str "method", json.Value.string (str "blxr_tx")),
           (str "params", json.Value.object
              [(str "transaction", json.Value.string (str "0x \"é\"\n<€>\u2028😀"))])]) ∧
    (json.Marshal (blxrTx (str "deadbeef"))).1
      = str "\x7b\"jsonrpc\":\"2.0\",\"id\":1,\"method\":\"blxr_tx\",\"params\":\x7b\"transaction\":\"deadbeef\"\x7d\x7d" :=
  Send_frame_valid_UTF8 (senderWith [(1, str "ok", none)] [])
    { writeErrs := [], incoming := [(1, str "ok", none)], writeCalls := [], readCalls := 0 }
    (str "0x \"é\"\n<€>\u2028😀") rfl (by decide)

end sender
